import Mathlib

/-!
Verification development for the claim-web-app repository (src/app.js,
src/monday-client.js).  The two JavaScript files each contain two
concatenated revisions of the same class; revision A of app.js holds
`processItemsWithDebug` / `debugIsUserItem` and a 7-day week, revision B
holds `processItems` / `isUserItem` and a 5-day week.  All definitions
below are shallow embeddings of those functions.

Modelling conventions:
* JS strings are `String`; a JS value that may be `null`/`undefined`
  is `Option _`; JS string truthiness is `s ≠ ""`.
* `JSON.parse` is embedded by the executable `jsonParse` below.
  JSON numbers are restricted to (optionally signed) integer literals,
  which covers every payload shape the program's logic inspects.
* JS `Date` objects are embedded as whole days since 1970-01-01 (UTC);
  `formatDate` performs the standard civil-from-days conversion that
  `toISOString().split('T')[0]` yields for a date at UTC midnight.
* Exceptions thrown and caught inside a single source function are
  folded into the `Option`/branch structure of its embedding;
  functions that let exceptions escape return `Except String _`.
-/

namespace ClaimWebApp

/-- Result of `JSON.parse`: the JSON value tree.  Numbers carry an
integer value (the program never branches on fractional numbers). -/
inductive Json where
  | null
  | bool (b : Bool)
  | num (n : Int)
  | str (s : String)
  | arr (elems : List Json)
  | obj (fields : List (String × Json))
deriving Repr

/-- JS truthiness of a parsed JSON value (`null`, `false`, `0`, `""`
are falsy; every object and array is truthy). -/
def jsTruthy : Json → Bool
  | .null => false
  | .bool b => b
  | .num n => n != 0
  | .str s => s != ""
  | .arr _ => true
  | .obj _ => true

/-- JS property access `j.k` on a parsed JSON value: a field lookup
that yields `none` (JS `undefined`) on non-objects or missing keys. -/
def fieldGet : Json → String → Option Json
  | .obj fs, k => fs.lookup k
  | _, _ => none

/-- JS strict equality `===` between a parsed JSON value and another;
reference equality of distinct objects/arrays is never true. -/
def atomEq : Json → Json → Bool
  | .null, .null => true
  | .bool a, .bool b => a == b
  | .num a, .num b => a == b
  | .str a, .str b => a == b
  | _, _ => false

/-- True exactly on the JSON `null` value. -/
def Json.isNull : Json → Bool
  | .null => true
  | _ => false

/-- JS `String(v)` coercion of a parsed JSON value (arrays join their
elements with commas, `null` inside an array prints as empty). -/
def jsToString : Json → String
  | .null => "null"
  | .bool true => "true"
  | .bool false => "false"
  | .num n => toString n
  | .str s => s
  | .obj _ => "[object Object]"
  | .arr xs => String.intercalate "," (xs.attach.map fun x =>
      if x.1.isNull then "" else jsToString x.1)
decreasing_by
  have := List.sizeOf_lt_of_mem x.2
  simp [Json.arr.sizeOf_spec]
  omega

/-- Substring occurrence test on character lists. -/
def strHasSub : List Char → List Char → Bool
  | [], sub => sub.isEmpty
  | c :: t, sub => if sub.isPrefixOf (c :: t) then true else strHasSub t sub

/-- JS `s.includes(sub)` substring test. -/
def jsIncludes (s sub : String) : Bool :=
  strHasSub s.toList sub.toList

def braceL : Char := Char.ofNat 123
def braceR : Char := Char.ofNat 125

def isJsonWs (c : Char) : Bool :=
  c = ' ' || c = '\t' || c = '\n' || c = '\r'

def skipWs (cs : List Char) : List Char :=
  cs.dropWhile isJsonWs

/-- Parse the body of a JSON string literal after the opening quote,
returning the contents and the remainder after the closing quote. -/
def parseStringBody : Nat → List Char → Option (String × List Char)
  | 0, _ => none
  | _, [] => none
  | fuel + 1, c :: rest =>
    if c = '"' then some ("", rest)
    else if c = '\\' then
      match rest with
      | [] => none
      | e :: rest2 =>
        let dec : Option Char :=
          if e = '"' then some '"'
          else if e = '\\' then some '\\'
          else if e = '/' then some '/'
          else if e = 'b' then some (Char.ofNat 8)
          else if e = 'f' then some (Char.ofNat 12)
          else if e = 'n' then some '\n'
          else if e = 'r' then some '\r'
          else if e = 't' then some '\t'
          else none
        match dec with
        | none =>
          if e = 'u' then
            match rest2 with
            | h1 :: h2 :: h3 :: h4 :: rest3 =>
              let hex? (h : Char) : Option Nat :=
                if h.isDigit then some (h.toNat - 48)
                else if 'a' ≤ h ∧ h ≤ 'f' then some (h.toNat - 87)
                else if 'A' ≤ h ∧ h ≤ 'F' then some (h.toNat - 55)
                else none
              match hex? h1, hex? h2, hex? h3, hex? h4 with
              | some a, some b, some c', some d =>
                match parseStringBody fuel rest3 with
                | some (s, r) =>
                  some (String.mk (Char.ofNat (a * 4096 + b * 256 + c' * 16 + d) :: s.toList), r)
                | none => none
              | _, _, _, _ => none
            | _ => none
          else none
        | some ch =>
          match parseStringBody fuel rest2 with
          | some (s, r) => some (String.mk (ch :: s.toList), r)
          | none => none
    else
      match parseStringBody fuel rest with
      | some (s, r) => some (String.mk (c :: s.toList), r)
      | none => none

/-- Decimal value of a digit sequence. -/
def digitsToNat (ds : List Char) : Nat :=
  ds.foldl (fun n c => n * 10 + (c.toNat - 48)) 0

/-- Parse a JSON integer literal (optional minus sign, digits). -/
def parseIntLit (cs : List Char) : Option (Int × List Char) :=
  match cs with
  | '-' :: rest =>
    let ds := rest.takeWhile Char.isDigit
    if ds.isEmpty then none
    else some (-(Int.ofNat (digitsToNat ds)), rest.drop ds.length)
  | _ =>
    let ds := cs.takeWhile Char.isDigit
    if ds.isEmpty then none
    else some (Int.ofNat (digitsToNat ds), cs.drop ds.length)

/-- The current job of the JSON parser: a whole value, the fields of
an object after its opening brace, one `"key": value` field, the
continuation of an object after a parsed field, and likewise for
arrays. -/
inductive PJob where
  | val
  | objFields (first : Bool)
  | objField
  | objTail (acc : List (String × Json))
  | arrElems (first : Bool)
  | arrTail (acc : List Json)

/-- The result of one parser job: a JSON value or one object field. -/
inductive PRes where
  | jv (j : Json)
  | fld (k : String) (v : Json)

/-- The recursive JSON parser: runs one job on the input (leading
whitespace already consumed), returning the result and the
unconsumed remainder; fuel bounds the recursion. -/
def parseRun : Nat → PJob → List Char → Option (PRes × List Char)
  | 0, _, _ => none
  | _, _, [] => none
  | fuel + 1, .val, c :: rest =>
    if c = '"' then
      match parseStringBody (fuel + 1) rest with
      | some (s, r) => some (.jv (.str s), r)
      | none => none
    else if c = braceL then parseRun fuel (.objFields true) (skipWs rest)
    else if c = '[' then parseRun fuel (.arrElems true) (skipWs rest)
    else if c = 't' then
      match rest with
      | 'r' :: 'u' :: 'e' :: r => some (.jv (.bool true), r)
      | _ => none
    else if c = 'f' then
      match rest with
      | 'a' :: 'l' :: 's' :: 'e' :: r => some (.jv (.bool false), r)
      | _ => none
    else if c = 'n' then
      match rest with
      | 'u' :: 'l' :: 'l' :: r => some (.jv .null, r)
      | _ => none
    else
      parseIntLit (c :: rest) |>.map fun (n, r) => (.jv (.num n), r)
  | fuel + 1, .objFields first, c :: rest =>
    if c = braceR then some (.jv (.obj []), rest)
    else if first then
      match parseRun fuel .objField (c :: rest) with
      | some (.fld k v, r) => parseRun fuel (.objTail [(k, v)]) (skipWs r)
      | _ => none
    else none
  | fuel + 1, .objField, c :: rest =>
    if c = '"' then
      match parseStringBody (fuel + 1) rest with
      | some (k, r) =>
        match skipWs r with
        | ':' :: r2 =>
          match parseRun fuel .val (skipWs r2) with
          | some (.jv v, r3) => some (.fld k v, r3)
          | _ => none
        | _ => none
      | none => none
    else none
  | fuel + 1, .objTail acc, c :: rest =>
    if c = braceR then some (.jv (.obj acc), rest)
    else if c = ',' then
      match parseRun fuel .objField (skipWs rest) with
      | some (.fld k v, r) => parseRun fuel (.objTail (acc ++ [(k, v)])) (skipWs r)
      | _ => none
    else none
  | fuel + 1, .arrElems first, c :: rest =>
    if c = ']' then some (.jv (.arr []), rest)
    else if first then
      match parseRun fuel .val (c :: rest) with
      | some (.jv v, r) => parseRun fuel (.arrTail [v]) (skipWs r)
      | _ => none
    else none
  | fuel + 1, .arrTail acc, c :: rest =>
    if c = ']' then some (.jv (.arr acc), rest)
    else if c = ',' then
      match parseRun fuel .val (skipWs rest) with
      | some (.jv v, r) => parseRun fuel (.arrTail (acc ++ [v])) (skipWs r)
      | _ => none
    else none

/-- Embedding of `JSON.parse`: `none` models a thrown `SyntaxError`.
The fuel `4 * length + 16` exceeds the recursion depth any input of
that length can force. -/
def jsonParse (s : String) : Option Json :=
  let cs := skipWs s.toList
  match parseRun (4 * cs.length + 16) .val cs with
  | some (.jv j, r) => if (skipWs r).isEmpty then some j else none
  | _ => none

/-- One element of a raw item's `column_values` list as returned by the
GraphQL API: `value` is a JSON string or `null`, `text` a string or
`null`. -/
structure ColumnValue where
  id : String
  value : Option String
  text : Option String
deriving Repr, DecidableEq

/-- A raw item from the remote board: `id`, `name`, and its column
values (`none` models an absent/null `column_values` field). -/
structure RawItem where
  id : String
  name : String
  column_values : Option (List ColumnValue)
deriving Repr, DecidableEq

/-- The configured user (`me {id name email}`); the id is kept as a
JSON value because the code compares it with `===` against ids parsed
out of column payloads. -/
structure User where
  id : Json
  name : String
  email : String

/-- The canonical entry record built by `processItems` for one item. -/
structure EntryData where
  id : String
  activityType : Int
  customer : String
  workItem : String
  comment : String
  hours : String
deriving Repr, DecidableEq

/-- Guard `x && x !== 'null' && x !== '""'` applied to a nullable
string field (`col.value` / `col.text`). -/
def sentinelGuard (x : Option String) : Bool :=
  match x with
  | none => false
  | some s => s != "" && s != "null" && s != "\"\""

/-- JS `s.split('T')[0]`: the prefix of `s` before the first `'T'`. -/
def splitT (s : String) : String :=
  String.mk (s.toList.takeWhile (· ≠ 'T'))

/-- The strict `^\d{4}-\d{2}-\d{2}$` date test from `extractItemDate`. -/
def isDateFormat (s : String) : Bool :=
  match s.toList with
  | [a, b, c, d, h1, e, f, h2, g, h] =>
    a.isDigit && b.isDigit && c.isDigit && d.isDigit && h1 = '-' &&
    e.isDigit && f.isDigit && h2 = '-' && g.isDigit && h.isDigit
  | _ => false

/-- First column for which `f` yields a result: embeds the source's
`for (const col of item.column_values)` loops, every iteration of
which either returns a value or falls through to the next column. -/
def firstSome {β : Type} (f : ColumnValue → Option β) : List ColumnValue → Option β
  | [] => none
  | c :: r =>
    match f c with
    | some b => some b
    | none => firstSome f r

/-- The `value`-field branch of `extractItemDate` on one column:
parse the JSON payload and take `value.date.split('T')[0]`.  A parse
error, as well as the TypeError thrown by `.split` when the `date`
field is not a string, is caught and yields `none` (fall through to
the `text` branch). -/
def dateFromValue (col : ColumnValue) : Option String :=
  match col.value with
  | none => none
  | some v =>
    if v != "" && v != "null" && v != "\"\"" then
      match jsonParse v with
      | none => none
      | some j =>
        if jsTruthy j then
          match fieldGet j "date" with
          | some d =>
            if jsTruthy d then
              match d with
              | .str s => some (splitT s)
              | _ => none
            else none
          | none => none
        else none
    else none

/-- The `text`-field fallback branch of `extractItemDate` on one
column: truncate at `'T'` and accept only `YYYY-MM-DD`. -/
def dateFromText (col : ColumnValue) : Option String :=
  match col.text with
  | none => none
  | some t =>
    if t != "" && t != "null" && t != "\"\"" then
      let dateStr := splitT t
      if isDateFormat dateStr then some dateStr else none
    else none

/-- What one `date4` column contributes to `extractItemDate`. -/
def tryDateCol (col : ColumnValue) : Option String :=
  if col.id = "date4" then
    match dateFromValue col with
    | some d => some d
    | none => dateFromText col
  else none

/-- `extractItemDate` (app.js, identical in both revisions): scan the
columns for `date4` and produce the item's calendar date, `null` when
none can be extracted. -/
def extractItemDate (item : RawItem) : Option String :=
  match item.column_values with
  | none => none
  | some cols => firstSome tryDateCol cols

/-- The `value`-field branch of `extractColumnValue` on one column:
JSON-decode; a decoded string is returned as is, a truthy decoded
`.text` member is returned (JS-coerced to a string), a parse error
returns the raw `value` string, and anything else falls through. -/
def colValFromValue (col : ColumnValue) : Option String :=
  match col.value with
  | none => none
  | some v =>
    if v != "" && v != "null" && v != "\"\"" then
      match jsonParse v with
      | none => some v
      | some (.str s) => some s
      | some j =>
        if jsTruthy j then
          match fieldGet j "text" with
          | some t => if jsTruthy t then some (jsToString t) else none
          | none => none
        else none
    else none

/-- What one column with the requested id contributes to
`extractColumnValue`: prefer the `text` field, then the `value`
branch. -/
def colValFromCol (col : ColumnValue) (columnId : String) : Option String :=
  if col.id = columnId then
    match col.text with
    | some t =>
      if t != "" && t != "null" && t != "\"\"" then some t
      else colValFromValue col
    | none => colValFromValue col
  else none

/-- `extractColumnValue` (app.js, identical in both revisions):
generic field extraction for customer / work item / comment / hours;
missing column or no usable representation yields `""`. -/
def extractColumnValue (item : RawItem) (columnId : String) : String :=
  match item.column_values with
  | none => ""
  | some cols => (firstSome (fun c => colValFromCol c columnId) cols).getD ""

/-- `extractCommentValue` (app.js): the comment column. -/
def extractCommentValue (item : RawItem) : String :=
  extractColumnValue item "text2__1"

/-- The fixed keyword table of `extractStatusValue`, in source order. -/
def statusMap : List (String × Int) :=
  [("vacation", 0), ("billable", 1), ("holding", 2), ("education", 3),
   ("work reduction", 4), ("tbd", 5), ("holiday", 6), ("presales", 7),
   ("illness", 8), ("paid not worked", 9), ("intellectual capital", 10),
   ("business development", 11), ("overhead", 12)]

/-- JS `s.toLowerCase()` (code-point lower-casing). -/
def jsToLower (s : String) : String :=
  String.mk (s.toList.map Char.toLower)

/-- The keyword fallback of `extractStatusValue`: lower-case the text
and return the code of the first table entry it contains. -/
def statusFromText (t : String) : Option Int :=
  let text := jsToLower t
  (statusMap.find? fun kv => jsIncludes text kv.1).map (·.2)

/-- What one `status` column contributes to `extractStatusValue`:
a decoded integer `index` member, or — only when JSON decoding
throws — the keyword fallback on the `text` field. -/
def statusFromCol (col : ColumnValue) : Option Int :=
  if col.id = "status" && sentinelGuard col.value then
    match col.value with
    | none => none
    | some v =>
      match jsonParse v with
      | some j =>
        if jsTruthy j then
          match fieldGet j "index" with
          | some (.num n) => some n
          | _ => none
        else none
      | none =>
        match col.text with
        | none => none
        | some t => if t != "" then statusFromText t else none
  else none

/-- `extractStatusValue` (app.js, identical in both revisions): the
activity-type code of an item, defaulting to 1 ("Billable"). -/
def extractStatusValue (item : RawItem) : Int :=
  match item.column_values with
  | none => 1
  | some cols => (firstSome statusFromCol cols).getD 1

/-- Left-pad a number with zeros to the given width. -/
def padZeros (width n : Nat) : String :=
  let s := toString n
  String.mk (List.replicate (width - s.length) '0') ++ s

/-- `formatDate` (app.js): render a day counted from 1970-01-01 as
the `YYYY-MM-DD` string `toISOString().split('T')[0]` produces, via
the standard civil-from-days conversion. -/
def formatDate (day : Nat) : String :=
  let z := day + 719468
  let era := z / 146097
  let doe := z % 146097
  let yoe := (doe - doe / 1460 + doe / 36524 - doe / 146097) / 365
  let y := yoe + era * 400
  let doy := doe - (365 * yoe + yoe / 4 - yoe / 100)
  let mp := (5 * doy + 2) / 153
  let d := doy - (153 * mp + 2) / 5 + 1
  let m := if mp < 10 then mp + 3 else mp - 9
  let year := if m ≤ 2 then y + 1 else y
  padZeros 4 year ++ "-" ++ padZeros 2 m ++ "-" ++ padZeros 2 d

/-- `getWeekDates` (app.js): the `count` consecutive days starting at
the selected week start (`count` is 7 in revision A, 5 in revision
B). -/
def getWeekDates (weekStart count : Nat) : List Nat :=
  (List.range count).map (weekStart + ·)

/-- The `.some(person => person.id === this.user.id)` scan over a
`personsAndTeams` array.  `.some` short-circuits on a match; on a
JSON `null` element `person.id` throws a TypeError, which the
enclosing `try` catches, abandoning the whole branch with no match —
so an element after a `null` is never reached.  Non-null non-object
elements yield `undefined` for `.id` (no throw) and do not match. -/
def personsScan (userId : Json) : List Json → Bool
  | [] => false
  | p :: ps =>
    match p with
    | .null => false
    | _ =>
      match fieldGet p "id" with
      | some v => if atomEq v userId then true else personsScan userId ps
      | none => personsScan userId ps

/-- `personData.personsAndTeams` check shared by both ownership
tests: the parsed payload lists the user's id (`===`) among
`personsAndTeams`, scanned left to right with the caught-TypeError
semantics of `personsScan`. -/
def personsMatch (userId : Json) (j : Json) : Bool :=
  match fieldGet j "personsAndTeams" with
  | some (.arr ps) => personsScan userId ps
  | _ => false

/-- One `person` column check of `isUserItem` (app.js revision B):
its JSON `value` lists the user's id; or its `text` contains the
user's name or email, or itself parses as JSON listing the user's
id. -/
def personColMatch (user : User) (col : ColumnValue) : Bool :=
  col.id = "person" &&
    ((sentinelGuard col.value &&
        match col.value with
        | some v =>
          (match jsonParse v with
           | some j => personsMatch user.id j
           | none => false)
        | none => false) ||
     (sentinelGuard col.text &&
        match col.text with
        | some t =>
          jsIncludes t user.name || jsIncludes t user.email ||
            (match jsonParse t with
             | some j => personsMatch user.id j
             | none => false)
        | none => false))

/-- `isUserItem` (app.js revision B, lines 2382-2451): the ownership
test used by `processItems`. -/
def isUserItem (user : User) (item : RawItem) : Bool :=
  (item.name != "" && jsIncludes item.name user.name) ||
    (match item.column_values with
     | some cols => cols.any (personColMatch user)
     | none => false)

/-- One `person` column check of `debugIsUserItem` (app.js revision
A): its JSON `value` lists the user's id, or its `text` (with no
`'null'`/`'""'` guard and no JSON fallback) contains the user's name
or email. -/
def debugPersonColMatch (user : User) (col : ColumnValue) : Bool :=
  col.id = "person" &&
    ((sentinelGuard col.value &&
        match col.value with
        | some v =>
          (match jsonParse v with
           | some j => personsMatch user.id j
           | none => false)
        | none => false) ||
     (match col.text with
      | some t => t != "" && (jsIncludes t user.name || jsIncludes t user.email)
      | none => false))

/-- `debugIsUserItem` (app.js revision A, lines 1062-1101): the
ownership test used by `processItemsWithDebug` (its `isMatch`
field). -/
def debugIsUserItem (user : User) (item : RawItem) : Bool :=
  (item.name != "" && jsIncludes item.name user.name) ||
    (match item.column_values with
     | some cols => cols.any (debugPersonColMatch user)
     | none => false)

/-- The `entryData` record both processing functions build from one
accepted item. -/
def mkEntry (item : RawItem) : EntryData :=
  { id := item.id
    activityType := extractStatusValue item
    customer := extractColumnValue item "text__1"
    workItem := extractColumnValue item "text8__1"
    comment := extractCommentValue item
    hours := extractColumnValue item "numbers__1" }

/-- The `this.entries` JS `Map`, as an insertion-ordered association
list from ISO date string to the entries pushed under that date. -/
abbrev WeekIndex := List (String × List EntryData)

/-- `this.entries.get(date).push(entryData)` preceded by
`if (!has(date)) set(date, [])`: append under an existing key or add
the key at the end. -/
def mapPush (m : WeekIndex) (k : String) (v : EntryData) : WeekIndex :=
  match m with
  | [] => [(k, [v])]
  | (k', vs) :: rest =>
    if k' = k then (k', vs ++ [v]) :: rest else (k', vs) :: mapPush rest k v

/-- The per-item body shared by `processItems` and
`processItemsWithDebug`: filter by the ownership test, extract the
date, keep only current-week dates, and push the entry record. -/
def processStep (test : RawItem → Bool) (currentWeekDates : List String)
    (m : WeekIndex) (item : RawItem) : WeekIndex :=
  if test item then
    match extractItemDate item with
    | some date =>
      if currentWeekDates.contains date then mapPush m date (mkEntry item) else m
    | none => m
  else m

/-- The common loop of both processing functions (revision A visits
the items in chunks of 100, in the same overall order). -/
def processCore (test : RawItem → Bool) (currentWeekDates : List String)
    (items : List RawItem) : WeekIndex :=
  items.foldl (processStep test currentWeekDates) []

/-- `processItems` (app.js revision B, lines 2318-2380): rebuild the
week index from the items, using `isUserItem` and the revision's
5-day week. -/
def processItems (user : User) (weekStart : Nat) (items : List RawItem) : WeekIndex :=
  processCore (isUserItem user) ((getWeekDates weekStart 5).map formatDate) items

/-- `processItemsWithDebug` (app.js revision A, lines 999-1060):
rebuild the week index from the items, using `debugIsUserItem` and
the revision's 7-day week. -/
def processItemsWithDebug (user : User) (weekStart : Nat) (items : List RawItem) : WeekIndex :=
  processCore (debugIsUserItem user) ((getWeekDates weekStart 7).map formatDate) items

/-- The customer/work-item memory: `customerWorkPairs` is the JS
`Map customer -> Set workItems` (insertion-ordered, sets as
duplicate-free lists) and `expiredPairs` the JS
`Set "customer|workItem"`. -/
structure Memory where
  customerWorkPairs : List (String × List String)
  expiredPairs : List String
deriving Repr, DecidableEq

/-- The `customer|workItem` key used for the expired set. -/
def pairKey (customer workItem : String) : String :=
  customer ++ "|" ++ workItem

/-- JS `Set.add`: append unless already present. -/
def setAdd (l : List String) (x : String) : List String :=
  if x ∈ l then l else l ++ [x]

/-- `map.get(customer).add(workItem)` preceded by
`if (!map.has(customer)) map.set(customer, new Set())`. -/
def mapAddSet (m : List (String × List String)) (c w : String) :
    List (String × List String) :=
  match m with
  | [] => [(c, [w])]
  | (c', ws) :: r =>
    if c' = c then (c', setAdd ws w) :: r else (c', ws) :: mapAddSet r c w

/-- `addCustomerWorkPair` (app.js, lines 82-102): learn a pair unless
a field is falsy or `'null'` or the pair is expired. -/
def addCustomerWorkPair (m : Memory) (customer workItem : String) : Memory :=
  if customer = "" || workItem = "" || customer = "null" || workItem = "null" then m
  else if pairKey customer workItem ∈ m.expiredPairs then m
  else { m with customerWorkPairs := mapAddSet m.customerWorkPairs customer workItem }

/-- Delete a work item from a customer's set, dropping the customer
when its set becomes empty. -/
def mapRemoveSet (m : List (String × List String)) (c w : String) :
    List (String × List String) :=
  match m with
  | [] => []
  | (c', ws) :: r =>
    if c' = c then
      let ws' := ws.erase w
      if ws' = [] then r else (c', ws') :: r
    else (c', ws) :: mapRemoveSet r c w

/-- `removeCustomerWorkPair` (app.js, lines 104-112). -/
def removeCustomerWorkPair (m : Memory) (customer workItem : String) : Memory :=
  { m with customerWorkPairs := mapRemoveSet m.customerWorkPairs customer workItem }

/-- `markPairAsExpired` (app.js, lines 114-120): add the key to the
expired set, then remove the pair from the active map. -/
def markPairAsExpired (m : Memory) (customer workItem : String) : Memory :=
  removeCustomerWorkPair
    { m with expiredPairs := setAdd m.expiredPairs (pairKey customer workItem) }
    customer workItem

/-- `unmarkPairAsExpired` (app.js, lines 122-127). -/
def unmarkPairAsExpired (m : Memory) (customer workItem : String) : Memory :=
  { m with expiredPairs := m.expiredPairs.erase (pairKey customer workItem) }

/-- `getCustomerWorkPairs` (app.js, lines 129-140): the active
suggestion list — all non-expired pairs in map order, sorted by
customer (`localeCompare` modelled as code-point order; JS sort is
stable). -/
def getCustomerWorkPairs (m : Memory) : List (String × String) :=
  let pairs := m.customerWorkPairs.flatMap fun cw =>
    cw.2.filterMap fun w =>
      if pairKey cw.1 w ∈ m.expiredPairs then none else some (cw.1, w)
  pairs.mergeSort fun a b => a.1 ≤ b.1

/-- One operation on the customer/work-item memory. -/
inductive MemOp where
  | add (customer workItem : String)
  | remove (customer workItem : String)
  | markExpired (customer workItem : String)
  | unmarkExpired (customer workItem : String)

/-- Apply one memory operation. -/
def applyMemOp (m : Memory) : MemOp → Memory
  | .add c w => addCustomerWorkPair m c w
  | .remove c w => removeCustomerWorkPair m c w
  | .markExpired c w => markPairAsExpired m c w
  | .unmarkExpired c w => unmarkPairAsExpired m c w

/-- Run a sequence of memory operations from the initial empty
memory (app.js constructor: empty `Map`, empty `Set`). -/
def runMemOps (ops : List MemOp) : Memory :=
  ops.foldl applyMemOp { customerWorkPairs := [], expiredPairs := [] }

/-!  The Remote Data Gateway (src/monday-client.js). -/

/-- The part of one GraphQL page response the pagination loop reads:
`itemsPage` is `data.boards[0].groups[0].items_page` (`none` when a
link of that chain is missing, which breaks the loop), carrying the
`cursor` and the page's items (`items || []` already coalesced). -/
structure PageResponse where
  itemsPage : Option ((Option String) × List RawItem)
deriving Repr

/-- JS truthiness of `itemsPage.cursor` (absent and `""` are falsy). -/
def cursorTruthy : Option String → Bool
  | none => false
  | some s => s != ""

/-- The shared pagination loop of `queryItemsPaginated` and
`queryAllItemsInGroup`: fetch the page, concatenate its items, stop
when the chain is broken, the cursor is falsy, the page is short, or
the page counter passes `maxPages`; a page-level error aborts the
whole fetch.  `source` maps the page number and cursor to that
request's outcome. -/
def fetchLoop (source : Nat → Option String → Except String PageResponse)
    (pageSize maxPages : Nat) (allItems : List RawItem)
    (cursor : Option String) (page : Nat) : Except String (List RawItem) :=
  match source page cursor with
  | .error e => .error e
  | .ok resp =>
    match resp.itemsPage with
    | none => .ok allItems
    | some (cur, pageItems) =>
      let acc := allItems ++ pageItems
      if !cursorTruthy cur || pageItems.length < pageSize then .ok acc
      else if h : maxPages < page + 1 then .ok acc
      else fetchLoop source pageSize maxPages acc cur (page + 1)
termination_by maxPages - page
decreasing_by omega

/-- `queryItemsPaginated` (monday-client.js revision B, lines
793-901): page size 500, safety ceiling 20 pages. -/
def queryItemsPaginated (source : Nat → Option String → Except String PageResponse) :
    Except String (List RawItem) :=
  fetchLoop source 500 20 [] none 1

/-- `queryAllItemsInGroup` (monday-client.js revision A, lines
111-212): caller-chosen page size (default 100), safety ceiling 10
pages. -/
def queryAllItemsInGroup (source : Nat → Option String → Except String PageResponse)
    (limit : Nat) : Except String (List RawItem) :=
  fetchLoop source limit 10 [] none 1

/-- The cursor the loop passes to fetch number `k` (0-based): `null`
for the first fetch, afterwards the cursor of the previous page. -/
def traceCursor (source : Nat → Option String → Except String PageResponse) :
    Nat → Option String
  | 0 => none
  | k + 1 =>
    match source (k + 1) (traceCursor source k) with
    | .ok r =>
      match r.itemsPage with
      | some (c, _) => c
      | none => none
    | .error _ => none

/-- The items returned by fetch number `k` (0-based) along the actual
run of the loop. -/
def pageItemsAt (source : Nat → Option String → Except String PageResponse)
    (k : Nat) : List RawItem :=
  match source (k + 1) (traceCursor source k) with
  | .ok r =>
    match r.itemsPage with
    | some (_, its) => its
    | none => []
  | .error _ => []

/-- `f k ++ f (k+1) ++ ... ++ f (k+n-1)`: the concatenation, in fetch
order, of `n` consecutive pages starting at fetch number `k`. -/
def pagesConcat (f : Nat → List RawItem) (k : Nat) : Nat → List RawItem
  | 0 => []
  | n + 1 => f k ++ pagesConcat f (k + 1) n

/-!  `makeRequest` (monday-client.js, both revisions, lines 13-56 and
701-738). -/

/-- The transport-level outcome the code inspects: HTTP `ok` flag and
status, the error body text, and the parsed JSON body (`none` models
a `response.json()` rejection). -/
structure HttpResponse where
  ok : Bool
  status : Nat
  text : String
  json : Option Json

/-- What one non-null entry of the GraphQL `errors` array contributes
to `errors.map(error => error.message).join(', ')`: `join` renders an
`undefined` (absent) or `null` message as the empty string, any other
message via the JS string coercion. -/
def errorMessage (e : Json) : String :=
  match fieldGet e "message" with
  | some .null => ""
  | some m => jsToString m
  | none => ""

/-- JS `x.length > 0` on the `errors` field: a string compares its
length, an array its element count, an object its numeric `length`
member if any; `.length` of numbers and booleans is `undefined`, and
`undefined > 0` is false.  (A non-numeric `length` member is
approximated as not positive.) -/
def jsLengthPositive : Json → Bool
  | .str s => 0 < s.length
  | .arr xs => 0 < xs.length
  | .obj fs =>
    match fs.lookup "length" with
    | some (.num n) => 0 < n
    | _ => false
  | _ => false

/-- `makeRequest`: reject without touching the transport when no API
key is configured; then fail on transport rejection, non-2xx
response, or unparseable body.  `if (result.errors &&
result.errors.length > 0)` guards the error branch: inside it, a
non-array `errors` (e.g. a non-empty string) throws a TypeError at
`.map`, an array containing `null` throws a TypeError at `.message`,
and otherwise the mapped messages are joined with `", "`; a falsy or
length-less truthy `errors` falls through and the body's `data`
field is returned.  Thrown platform TypeErrors are modelled with
fixed message strings. -/
def makeRequest (apiKey : Option String)
    (transport : Unit → Except String HttpResponse) :
    Except String (Option Json) :=
  if apiKey = none ∨ apiKey = some "" then .error "API key not set"
  else
    match transport () with
    | .error e => .error e
    | .ok response =>
      if !response.ok then
        .error ("HTTP error! status: " ++ toString response.status ++
          ", response: " ++ response.text)
      else
        match response.json with
        | none => .error "Unexpected end of JSON input"
        | some result =>
          match fieldGet result "errors" with
          | some errs =>
            if jsTruthy errs && jsLengthPositive errs then
              match errs with
              | .arr es =>
                if es.any Json.isNull then
                  .error "TypeError: Cannot read properties of null (reading 'message')"
                else
                  .error ("Monday.com API error: " ++
                    String.intercalate ", " (es.map errorMessage))
              | _ => .error "TypeError: result.errors.map is not a function"
            else .ok (fieldGet result "data")
          | none => .ok (fieldGet result "data")

/-!  Concrete fixtures used by the witness and counterexample
theorems below. -/

/-- A sample configured user. -/
def wUser : User := { id := .num 7, name := "Alice", email := "alice@x.com" }

/-- An item owned by the user, dated inside the week starting
2024-01-01 (day 19723), with an ISO timestamp in the date payload. -/
def wItemIn : RawItem :=
  { id := "1"
    name := "Alice claim"
    column_values := some [
      { id := "date4", value := some "\x7b\"date\":\"2024-01-03T09:00:00\"\x7d", text := none },
      { id := "status", value := some "\x7b\"index\":6\x7d", text := none },
      { id := "text__1", value := none, text := some "ACME" }] }

/-- An item owned by the user but dated in a prior week. -/
def wItemPrior : RawItem :=
  { id := "2"
    name := "Alice claim"
    column_values := some [
      { id := "date4", value := none, text := some "2023-12-25" }] }

/-- An item that does not belong to the user. -/
def wItemOther : RawItem :=
  { id := "3", name := "Bob claim", column_values := some [] }

/-- The item list used by the processing witnesses. -/
def wItems : List RawItem := [wItemIn, wItemPrior, wItemOther]

/-- The ownership test as the claim words it (for comparison with the
code's `isUserItem` / `debugIsUserItem`): the display name contains
the user's display name, or the person column's JSON `value` lists
the user's id among `personsAndTeams`, or that column's `text`
contains the user's name or email. -/
def claimedIsUserItem (user : User) (item : RawItem) : Bool :=
  jsIncludes item.name user.name ||
    (match item.column_values with
     | some cols =>
       cols.any fun col =>
         col.id = "person" &&
           ((match col.value with
             | some v =>
               (match jsonParse v with
                | some j => personsMatch user.id j
                | none => false)
             | none => false) ||
            (match col.text with
             | some t => jsIncludes t user.name || jsIncludes t user.email
             | none => false))
     | none => false)

/-- A user whose name and email occur nowhere in the fixture item. -/
def cexUser : User := { id := .num 7, name := "ZZ", email := "zz@x" }

/-- An item whose person column has no JSON `value`, and whose `text`
contains neither the user's name nor email but itself parses as JSON
listing the user's id. -/
def cexItem : RawItem :=
  { id := "9"
    name := "work-1"
    column_values := some [
      { id := "person", value := none,
        text := some "\x7b\"personsAndTeams\":[\x7b\"id\":7\x7d]\x7d" }] }

/-- An item whose date payload is malformed JSON but whose text field
carries a valid timestamp. -/
def c4Item : RawItem :=
  { id := "4"
    name := "x"
    column_values := some [
      { id := "date4", value := some "oops", text := some "2024-01-16T12:00:00" }] }

/-- The value-branch of generic field extraction as the claim words
it: decoded string, else `.text` sub-field, else the raw `value`
string. -/
def claimedFromValue (col : ColumnValue) : String :=
  match col.value with
  | none => ""
  | some v =>
    match jsonParse v with
    | some (.str s) => s
    | some j =>
      match fieldGet j "text" with
      | some t => jsToString t
      | none => v
    | none => v

/-- Generic field extraction as the claim words it (for comparison
with the code's `extractColumnValue`): prefer non-sentinel `text`,
else the decoded string, else the decoded `.text` sub-field, else
fall back to the raw `value` string; missing column gives `""`. -/
def claimedExtractColumnValue (item : RawItem) (columnId : String) : String :=
  match item.column_values with
  | none => ""
  | some cols =>
    match cols.find? fun c => c.id = columnId with
    | none => ""
    | some col =>
      match col.text with
      | some t =>
        if t != "" && t != "null" && t != "\"\"" then t else claimedFromValue col
      | none => claimedFromValue col

/-- An item whose column's `value` decodes to a JSON number: neither
a string nor an object with a `.text` member. -/
def c5Item : RawItem :=
  { id := "5"
    name := "x"
    column_values := some [
      { id := "text__1", value := some "123", text := none }] }

/-- An item whose column's `value` is not JSON at all. -/
def c5RawItem : RawItem :=
  { id := "6"
    name := "x"
    column_values := some [
      { id := "numbers__1", value := some "not json", text := none }] }

/-- An item whose status payload decodes to `{index: 6}`. -/
def c6IdxItem : RawItem :=
  { id := "7"
    name := "x"
    column_values := some [
      { id := "status", value := some "\x7b\"index\":6\x7d", text := some "Holiday" }] }

/-- An item with an unparseable status payload and the keyword text
`Business Development hrs`. -/
def c6KwItem : RawItem :=
  { id := "8"
    name := "x"
    column_values := some [
      { id := "status", value := some "not json",
        text := some "Business Development hrs" }] }

/-- An item whose status payload decodes to an object with no numeric
`index` member, while its text would match the keyword table. -/
def c10Item : RawItem :=
  { id := "10"
    name := "x"
    column_values := some [
      { id := "status", value := some "\x7b\"label\":\"Holiday\"\x7d",
        text := some "Holiday" }] }

/-- A full 500-item page. -/
def c2Page : List RawItem := List.replicate 500 wItemOther

/-- A mock paged source that always answers with a full page and a
non-empty cursor. -/
def c2Source : Nat → Option String → Except String PageResponse :=
  fun _ _ => .ok { itemsPage := some (some "cursor", c2Page) }

/-- A successful GraphQL body carrying a `data` field. -/
def c8OkBody : Json := .obj [("data", .obj [("me", .num 1)])]

/-- A 200 response with the successful body. -/
def c8OkResp : HttpResponse :=
  { ok := true, status := 200, text := "", json := some c8OkBody }

/-- A GraphQL body carrying two errors. -/
def c8ErrBody : Json :=
  .obj [("errors", .arr [.obj [("message", .str "bad")],
    .obj [("message", .str "worse")]])]

/-- A 200 response whose body carries the two errors. -/
def c8ErrResp : HttpResponse :=
  { ok := true, status := 200, text := "", json := some c8ErrBody }

/-- A GraphQL body whose `errors` field is a non-empty string, not an
array. -/
def c8StrBody : Json := .obj [("errors", .str "oops")]

/-- A 200 response whose body carries the string `errors` field. -/
def c8StrResp : HttpResponse :=
  { ok := true, status := 200, text := "", json := some c8StrBody }

end ClaimWebApp

namespace ClaimWebApp

/-!  Helper lemmas. -/

theorem lookup_mapPush (m : WeekIndex) (k : String) (v : EntryData) (k' : String) :
    List.lookup k' (mapPush m k v) =
      if k' = k then some ((List.lookup k m).getD [] ++ [v]) else List.lookup k' m := by
  induction m with
  | nil =>
    by_cases h : k' = k
    · subst h; simp [mapPush, List.lookup]
    · simp [mapPush, List.lookup, beq_false_of_ne h, h]
  | cons p rest ih =>
    obtain ⟨k2, vs⟩ := p
    by_cases h2 : k2 = k
    · subst h2
      by_cases h : k' = k2
      · subst h; simp [mapPush, List.lookup]
      · simp [mapPush, List.lookup, beq_false_of_ne h, h]
    · by_cases h : k' = k2
      · subst h
        have hne : ¬k' = k := h2
        simp [mapPush, List.lookup, h2, hne]
      · have hb3 : (k == k2) = false := beq_false_of_ne fun hh => h2 hh.symm
        simp [mapPush, List.lookup, h2, beq_false_of_ne h, h, ih, hb3]

theorem processCore_lookup_aux (test : RawItem → Bool) (wd : List String)
    (l0 : List RawItem) :
    ∀ (l : List RawItem), (∀ it ∈ l, it ∈ l0) → ∀ (acc : WeekIndex),
      (∀ d es, List.lookup d acc = some es → d ∈ wd ∧ ∀ e ∈ es,
        ∃ it, it ∈ l0 ∧ test it = true ∧ extractItemDate it = some d ∧ mkEntry it = e) →
      ∀ d es, List.lookup d (List.foldl (processStep test wd) acc l) = some es →
        d ∈ wd ∧ ∀ e ∈ es,
          ∃ it, it ∈ l0 ∧ test it = true ∧ extractItemDate it = some d ∧ mkEntry it = e := by
  intro l
  induction l with
  | nil => exact fun _ acc hacc d es h => hacc d es h
  | cons a t ih =>
    intro hsub acc hacc
    have ha : a ∈ l0 := hsub a (List.mem_cons_self a t)
    have hsub' : ∀ it ∈ t, it ∈ l0 := fun it hit => hsub it (List.mem_cons_of_mem a hit)
    simp only [List.foldl_cons]
    refine ih hsub' (processStep test wd acc a) ?_
    intro d es h
    unfold processStep at h
    by_cases htest : test a
    · simp only [htest, if_true] at h
      cases hdate : extractItemDate a with
      | none => rw [hdate] at h; exact hacc d es h
      | some da =>
        rw [hdate] at h
        change List.lookup d
          (if wd.contains da = true then mapPush acc da (mkEntry a) else acc) = some es at h
        by_cases hin : wd.contains da
        · rw [if_pos hin, lookup_mapPush] at h
          by_cases hd : d = da
          · subst hd
            rw [if_pos rfl] at h
            have hdw : d ∈ wd := by
              simpa [List.contains_iff_exists_mem_beq, beq_iff_eq] using hin
            refine ⟨hdw, ?_⟩
            obtain rfl : (List.lookup d acc).getD [] ++ [mkEntry a] = es :=
              Option.some.inj h
            intro e he
            rcases List.mem_append.mp he with hold | hnew
            · cases hacc' : List.lookup d acc with
              | none => rw [hacc'] at hold; simp at hold
              | some os =>
                rw [hacc'] at hold
                exact (hacc d os hacc').2 e hold
            · have heq : e = mkEntry a := by simpa using hnew
              exact ⟨a, ha, htest, hdate, heq.symm⟩
          · rw [if_neg hd] at h
            exact hacc d es h
        · rw [if_neg hin] at h
          exact hacc d es h
    · simp only [htest, if_false] at h
      exact hacc d es h

theorem processCore_lookup (test : RawItem → Bool) (wd : List String)
    (items : List RawItem) (d : String) (es : List EntryData)
    (h : List.lookup d (processCore test wd items) = some es) :
    d ∈ wd ∧ ∀ e ∈ es,
      ∃ it, it ∈ items ∧ test it = true ∧ extractItemDate it = some d ∧ mkEntry it = e := by
  refine processCore_lookup_aux test wd items items (fun it hit => hit) [] ?_ d es h
  intro d es h
  simp [List.lookup] at h

theorem weekDates5_subset_weekDates7 (weekStart : Nat) (d : String)
    (h : d ∈ (getWeekDates weekStart 5).map formatDate) :
    d ∈ (getWeekDates weekStart 7).map formatDate := by
  simp only [getWeekDates, List.map_map, List.mem_map, List.mem_range] at h ⊢
  obtain ⟨i, hi, rfl⟩ := h
  exact ⟨i, by omega, rfl⟩

/-!  Claim theorems. -/

/-- C1: after normalization by `processItems` or
`processItemsWithDebug`, the week index only holds entries under
dates among the 7 contiguous calendar dates starting at the selected
week start, and every stored entry stems from an item whose
extracted date is that in-week date; items with out-of-week dates
are therefore absent. -/
theorem claim_C1_week_scope (user : User) (weekStart : Nat) (items : List RawItem)
    (d : String) (es : List EntryData) :
    (List.lookup d (processItems user weekStart items) = some es →
      d ∈ (getWeekDates weekStart 7).map formatDate ∧ ∀ e ∈ es,
        ∃ it, it ∈ items ∧ extractItemDate it = some d ∧ mkEntry it = e) ∧
    (List.lookup d (processItemsWithDebug user weekStart items) = some es →
      d ∈ (getWeekDates weekStart 7).map formatDate ∧ ∀ e ∈ es,
        ∃ it, it ∈ items ∧ extractItemDate it = some d ∧ mkEntry it = e) := by
  constructor
  · intro h
    obtain ⟨hd, he⟩ := processCore_lookup _ _ _ _ _ h
    exact ⟨weekDates5_subset_weekDates7 weekStart d hd,
      fun e hee => (he e hee).elim fun it ⟨h1, _, h3, h4⟩ => ⟨it, h1, h3, h4⟩⟩
  · intro h
    obtain ⟨hd, he⟩ := processCore_lookup _ _ _ _ _ h
    exact ⟨hd, fun e hee => (he e hee).elim fun it ⟨h1, _, h3, h4⟩ => ⟨it, h1, h3, h4⟩⟩

/-- C1 witness: a concrete three-item batch; the lone stored date key
2024-01-03 lies in the week of Monday 2024-01-01 (day 19723) and its
entry stems from the in-week item. -/
theorem claim_C1_week_scope_witness :
    "2024-01-03" ∈ (getWeekDates 19723 7).map formatDate ∧
      ∀ e ∈ [mkEntry wItemIn],
        ∃ it, it ∈ wItems ∧ extractItemDate it = some "2024-01-03" ∧ mkEntry it = e :=
  (claim_C1_week_scope wUser 19723 wItems "2024-01-03" [mkEntry wItemIn]).1 (by rfl)

theorem contains_eq_mem (wd : List String) (d : String) :
    wd.contains d = true ↔ d ∈ wd := by
  simp [List.contains_iff_exists_mem_beq, beq_iff_eq]

theorem processStep_noop (test : RawItem → Bool) (wd : List String)
    (m : WeekIndex) (item : RawItem)
    (hfail : test item = false ∨ extractItemDate item = none ∨
      ∀ d, extractItemDate item = some d → wd.contains d = false) :
    processStep test wd m item = m := by
  unfold processStep
  rcases hfail with h | h | h
  · simp [h]
  · simp [h]
  · cases hdate : extractItemDate item with
    | none => simp
    | some da =>
      have hcon := h da hdate
      have hnotmem : da ∉ wd := by
        intro hm
        rw [(contains_eq_mem wd da).mpr hm] at hcon
        cases hcon
      simp [hdate, hnotmem]

theorem mem_lookup_processStep (test : RawItem → Bool) (wd : List String)
    (acc : WeekIndex) (it : RawItem) (d : String) (e : EntryData)
    (h : e ∈ (List.lookup d acc).getD []) :
    e ∈ (List.lookup d (processStep test wd acc it)).getD [] := by
  unfold processStep
  cases htest : test it
  · simpa using h
  · cases hdate : extractItemDate it with
    | none => simpa using h
    | some da =>
      by_cases hin : wd.contains da
      · simp only [hin, if_true]
        rw [lookup_mapPush]
        by_cases hd : d = da
        · subst hd
          rw [if_pos rfl]
          cases hacc : List.lookup d acc with
          | none => rw [hacc] at h; simp at h
          | some os =>
            rw [hacc] at h
            simp only [Option.getD_some] at h ⊢
            exact List.mem_append.mpr (Or.inl h)
        · rw [if_neg hd]
          exact h
      · simp only [hin, if_false]
        exact h

theorem mem_lookup_foldl (test : RawItem → Bool) (wd : List String) :
    ∀ (l : List RawItem) (acc : WeekIndex) (d : String) (e : EntryData),
      e ∈ (List.lookup d acc).getD [] →
      e ∈ (List.lookup d (List.foldl (processStep test wd) acc l)).getD [] := by
  intro l
  induction l with
  | nil => exact fun acc d e h => h
  | cons a t ih =>
    intro acc d e h
    exact ih (processStep test wd acc a) d e (mem_lookup_processStep test wd acc a d e h)

theorem processCore_presence_aux (test : RawItem → Bool) (wd : List String) :
    ∀ (l : List RawItem) (acc : WeekIndex) (it : RawItem) (d : String),
      it ∈ l → test it = true → extractItemDate it = some d → wd.contains d = true →
      mkEntry it ∈ (List.lookup d (List.foldl (processStep test wd) acc l)).getD [] := by
  intro l
  induction l with
  | nil => intro acc it d h; simp at h
  | cons a t ih =>
    intro acc it d hmem htest hdate hin
    rcases List.mem_cons.mp hmem with rfl | hmem'
    · simp only [List.foldl_cons]
      refine mem_lookup_foldl test wd t _ d _ ?_
      unfold processStep
      rw [htest, if_pos rfl, hdate]
      simp only [hin, if_true]
      rw [lookup_mapPush, if_pos rfl]
      simp
    · simp only [List.foldl_cons]
      exact ih (processStep test wd acc a) it d hmem' htest hdate hin

/-- C7: normalization never aborts the batch — an item failing the
ownership test, lacking an extractable date, or dated outside the
active week contributes nothing and the remaining items produce the
same week index, while every accepted item's entry is present;
all extraction is total, so no per-item failure can abort
processing. -/
theorem claim_C7_degrade_gracefully (user : User) (weekStart : Nat)
    (pre post items : List RawItem) (item : RawItem) (d : String) :
    ((isUserItem user item = false ∨ extractItemDate item = none ∨
        ∀ d', extractItemDate item = some d' →
          d' ∉ (getWeekDates weekStart 5).map formatDate) →
      processItems user weekStart (pre ++ item :: post) =
        processItems user weekStart (pre ++ post)) ∧
    ((debugIsUserItem user item = false ∨ extractItemDate item = none ∨
        ∀ d', extractItemDate item = some d' →
          d' ∉ (getWeekDates weekStart 7).map formatDate) →
      processItemsWithDebug user weekStart (pre ++ item :: post) =
        processItemsWithDebug user weekStart (pre ++ post)) ∧
    (item ∈ items → isUserItem user item = true → extractItemDate item = some d →
      d ∈ (getWeekDates weekStart 5).map formatDate →
      mkEntry item ∈ (List.lookup d (processItems user weekStart items)).getD []) := by
  refine ⟨?_, ?_, ?_⟩
  · intro hfail
    unfold processItems processCore
    rw [List.foldl_append, List.foldl_append, List.foldl_cons]
    congr 1
    apply processStep_noop
    rcases hfail with h | h | h
    · exact Or.inl h
    · exact Or.inr (Or.inl h)
    · refine Or.inr (Or.inr fun d' hd' => ?_)
      have := h d' hd'
      rcases hcon : ((getWeekDates weekStart 5).map formatDate).contains d' with _ | _
      · rfl
      · exact absurd ((contains_eq_mem _ _).mp hcon) this
  · intro hfail
    unfold processItemsWithDebug processCore
    rw [List.foldl_append, List.foldl_append, List.foldl_cons]
    congr 1
    apply processStep_noop
    rcases hfail with h | h | h
    · exact Or.inl h
    · exact Or.inr (Or.inl h)
    · refine Or.inr (Or.inr fun d' hd' => ?_)
      have := h d' hd'
      rcases hcon : ((getWeekDates weekStart 7).map formatDate).contains d' with _ | _
      · rfl
      · exact absurd ((contains_eq_mem _ _).mp hcon) this
  · intro hmem htest hdate hin
    exact processCore_presence_aux (isUserItem user) _ items [] item d hmem htest hdate
      ((contains_eq_mem _ _).mpr hin)

/-- C7 witness: dropping the non-owned item leaves the index of the
remaining batch unchanged, and the accepted in-week item's entry is
stored under its date. -/
theorem claim_C7_degrade_gracefully_witness :
    processItems wUser 19723 ([wItemIn] ++ wItemOther :: [wItemPrior]) =
      processItems wUser 19723 ([wItemIn] ++ [wItemPrior]) ∧
    mkEntry wItemIn ∈
      (List.lookup "2024-01-03" (processItems wUser 19723 wItems)).getD [] :=
  ⟨(claim_C7_degrade_gracefully wUser 19723 [wItemIn] [wItemPrior] wItems wItemOther
      "2024-01-03").1 (Or.inl (by rfl)),
   (claim_C7_degrade_gracefully wUser 19723 [] [] wItems wItemIn "2024-01-03").2.2
      (by simp [wItems]) (by rfl) (by rfl) (by decide)⟩

theorem match_opt_eq_true (g : String → Bool) (o : Option String) :
    (match o with
      | some s => g s
      | none => false) = true ↔ ∃ s, o = some s ∧ g s = true := by
  cases o <;> simp

theorem match_parse_eq_true (f : Json → Bool) (v : String) :
    (match jsonParse v with
      | some j => f j
      | none => false) = true ↔ ∃ j, jsonParse v = some j ∧ f j = true := by
  cases h : jsonParse v <;> simp [h]

theorem personColMatch_eq_true (user : User) (col : ColumnValue) :
    personColMatch user col = true ↔
      col.id = "person" ∧
        ((∃ v j, col.value = some v ∧ sentinelGuard (some v) = true ∧
            jsonParse v = some j ∧ personsMatch user.id j = true) ∨
         (∃ t, col.text = some t ∧ sentinelGuard (some t) = true ∧
            (jsIncludes t user.name = true ∨ jsIncludes t user.email = true ∨
             ∃ j, jsonParse t = some j ∧ personsMatch user.id j = true))) := by
  cases hv : col.value <;> cases ht : col.text <;>
    simp [personColMatch, hv, ht, match_parse_eq_true, Bool.and_eq_true,
      Bool.or_eq_true, and_assoc, or_assoc]

theorem debugPersonColMatch_eq_true (user : User) (col : ColumnValue) :
    debugPersonColMatch user col = true ↔
      col.id = "person" ∧
        ((∃ v j, col.value = some v ∧ sentinelGuard (some v) = true ∧
            jsonParse v = some j ∧ personsMatch user.id j = true) ∨
         (∃ t, col.text = some t ∧ t ≠ "" ∧
            (jsIncludes t user.name = true ∨ jsIncludes t user.email = true))) := by
  cases hv : col.value <;> cases ht : col.text <;>
    simp [debugPersonColMatch, hv, ht, match_parse_eq_true, Bool.and_eq_true,
      Bool.or_eq_true, and_assoc, or_assoc]

/-- C3 amended: the ownership tests characterized exactly.  Both
revisions match on the display name, on the person column's JSON
`value` listing the user's id among `personsAndTeams` (scanned left
to right; a `null` entry throws a caught TypeError that abandons the
check before any later entry), and on the person column's `text`
containing the user's name or email — but `isUserItem` (revision B)
additionally matches when the person column's `text` itself parses
as JSON listing the user's id under the same scan, and applies the
`'null'`/`'""'` sentinel guard to the text, while `debugIsUserItem`
(revision A) does neither; any item failing the respective test
contributes no entry to the respective week index, regardless of its
date. -/
theorem claim_C3_ownership_amended (user : User) (item : RawItem) :
    (isUserItem user item = true ↔
      (item.name ≠ "" ∧ jsIncludes item.name user.name = true) ∨
      (∃ cols, item.column_values = some cols ∧ ∃ col ∈ cols, col.id = "person" ∧
        ((∃ v j, col.value = some v ∧ sentinelGuard (some v) = true ∧
            jsonParse v = some j ∧ personsMatch user.id j = true) ∨
         (∃ t, col.text = some t ∧ sentinelGuard (some t) = true ∧
            (jsIncludes t user.name = true ∨ jsIncludes t user.email = true ∨
             ∃ j, jsonParse t = some j ∧ personsMatch user.id j = true))))) ∧
    (debugIsUserItem user item = true ↔
      (item.name ≠ "" ∧ jsIncludes item.name user.name = true) ∨
      (∃ cols, item.column_values = some cols ∧ ∃ col ∈ cols, col.id = "person" ∧
        ((∃ v j, col.value = some v ∧ sentinelGuard (some v) = true ∧
            jsonParse v = some j ∧ personsMatch user.id j = true) ∨
         (∃ t, col.text = some t ∧ t ≠ "" ∧
            (jsIncludes t user.name = true ∨ jsIncludes t user.email = true))))) ∧
    (∀ weekStart items d es e,
      List.lookup d (processItems user weekStart items) = some es → e ∈ es →
        ∃ it, it ∈ items ∧ isUserItem user it = true ∧ mkEntry it = e) ∧
    (∀ weekStart items d es e,
      List.lookup d (processItemsWithDebug user weekStart items) = some es → e ∈ es →
        ∃ it, it ∈ items ∧ debugIsUserItem user it = true ∧ mkEntry it = e) := by
  refine ⟨?_, ?_, ?_, ?_⟩
  · cases hcv : item.column_values with
    | none =>
      simp [isUserItem, hcv, Bool.or_eq_true, Bool.and_eq_true, and_comm]
    | some cols =>
      simp only [isUserItem, hcv, Bool.or_eq_true, Bool.and_eq_true,
        List.any_eq_true, bne_iff_ne, ne_eq, Option.some.injEq]
      constructor
      · rintro (⟨h1, h2⟩ | ⟨col, hc, hm⟩)
        · exact Or.inl ⟨h1, h2⟩
        · exact Or.inr ⟨cols, rfl, col, hc, (personColMatch_eq_true user col).mp hm⟩
      · rintro (⟨h1, h2⟩ | ⟨cols', hq, col, hc, hm⟩)
        · exact Or.inl ⟨h1, h2⟩
        · cases hq
          exact Or.inr ⟨col, hc, (personColMatch_eq_true user col).mpr hm⟩
  · cases hcv : item.column_values with
    | none =>
      simp [debugIsUserItem, hcv, Bool.or_eq_true, Bool.and_eq_true, and_comm]
    | some cols =>
      simp only [debugIsUserItem, hcv, Bool.or_eq_true, Bool.and_eq_true,
        List.any_eq_true, bne_iff_ne, ne_eq, Option.some.injEq]
      constructor
      · rintro (⟨h1, h2⟩ | ⟨col, hc, hm⟩)
        · exact Or.inl ⟨h1, h2⟩
        · exact Or.inr ⟨cols, rfl, col, hc, (debugPersonColMatch_eq_true user col).mp hm⟩
      · rintro (⟨h1, h2⟩ | ⟨cols', hq, col, hc, hm⟩)
        · exact Or.inl ⟨h1, h2⟩
        · cases hq
          exact Or.inr ⟨col, hc, (debugPersonColMatch_eq_true user col).mpr hm⟩
  · intro weekStart items d es e h he
    obtain ⟨-, hall⟩ := processCore_lookup _ _ _ _ _ h
    obtain ⟨it, h1, h2, -, h4⟩ := hall e he
    exact ⟨it, h1, h2, h4⟩
  · intro weekStart items d es e h he
    obtain ⟨-, hall⟩ := processCore_lookup _ _ _ _ _ h
    obtain ⟨it, h1, h2, -, h4⟩ := hall e he
    exact ⟨it, h1, h2, h4⟩

/-- C3 counterexample: `isUserItem` accepts an item that none of the
claim's three rules accepts (its person column's `text` parses as
JSON listing the user's id), and `debugIsUserItem` rejects the same
item, so the claimed common three-rule characterization fails. -/
theorem claim_C3_ownership_counterexample :
    isUserItem cexUser cexItem = true ∧
      claimedIsUserItem cexUser cexItem = false ∧
      debugIsUserItem cexUser cexItem = false :=
  ⟨by rfl, by rfl, by rfl⟩

/-- C3 witness: the amended characterization applied to a concrete
owned item, and the provenance of a concrete week-index entry. -/
theorem claim_C3_ownership_amended_witness :
    ∃ it, it ∈ wItems ∧ isUserItem wUser it = true ∧ mkEntry it = mkEntry wItemIn :=
  (claim_C3_ownership_amended wUser wItemIn).2.2.1 19723 wItems "2024-01-03"
    [mkEntry wItemIn] (mkEntry wItemIn) (by rfl) (by simp)

theorem firstSome_eq_none {β : Type} (f : ColumnValue → Option β) :
    ∀ cols, (∀ c ∈ cols, f c = none) → firstSome f cols = none := by
  intro cols
  induction cols with
  | nil => intro _; rfl
  | cons c r ih =>
    intro h
    unfold firstSome
    rw [h c (List.mem_cons_self c r)]
    exact ih fun c' hc' => h c' (List.mem_cons_of_mem c hc')

theorem firstSome_eq_of_unique {β : Type} (f : ColumnValue → Option β) :
    ∀ cols dcol, dcol ∈ cols → (∀ c ∈ cols, f c ≠ none → c = dcol) →
      firstSome f cols = f dcol := by
  intro cols
  induction cols with
  | nil => intro dcol h; simp at h
  | cons c r ih =>
    intro dcol hmem huniq
    unfold firstSome
    cases hfc : f c with
    | some b =>
      have : c = dcol := huniq c (List.mem_cons_self c r) (by simp [hfc])
      rw [← this, hfc]
    | none =>
      by_cases hdr : dcol ∈ r
      · exact ih dcol hdr fun c' hc' hne => huniq c' (List.mem_cons_of_mem c hc') hne
      · have hcd : c = dcol := by
          rcases List.mem_cons.mp hmem with h | h
          · exact h.symm
          · exact absurd h hdr
        have hall : ∀ c' ∈ r, f c' = none := by
          intro c' hc'
          by_contra hne
          have : c' = dcol := huniq c' (List.mem_cons_of_mem c hc') hne
          exact hdr (this ▸ hc')
        rw [firstSome_eq_none f r hall, ← hcd, hfc]

theorem jsTruthy_of_fieldGet (j : Json) (k : String) (x : Json)
    (h : fieldGet j k = some x) : jsTruthy j = true := by
  cases j with
  | obj fs => rfl
  | null => simp [fieldGet] at h
  | bool b => simp [fieldGet] at h
  | num n => simp [fieldGet] at h
  | str s => simp [fieldGet] at h
  | arr xs => simp [fieldGet] at h

theorem tryDateCol_id_ne (c : ColumnValue) (h : ¬c.id = "date4") :
    tryDateCol c = none := by
  simp [tryDateCol, h]

/-- C4: date extraction on an item with a unique `date4` column —
a decoded payload whose `date` field is a non-empty string yields
that string truncated at `'T'`; when decoding throws or the `date`
field is absent, the `text` field truncated at `'T'` is used exactly
when it matches the strict `YYYY-MM-DD` pattern; in every other case
— decoding throws, or the `date` field is absent, or the `value`
branch yields nothing at all (absent/sentinel value or unusable
`date` field) — while the text branch yields nothing, the result is
`null` (and the item is then dropped, see C7): the final conjunct is
a catch-all making the case split exhaustive. -/
theorem claim_C4_date_extraction (item : RawItem) (cols : List ColumnValue)
    (dcol : ColumnValue) (hcv : item.column_values = some cols) (hmem : dcol ∈ cols)
    (hid : dcol.id = "date4") (huniq : ∀ c ∈ cols, c.id = "date4" → c = dcol) :
    (∀ v j s, dcol.value = some v → sentinelGuard (some v) = true →
      jsonParse v = some j → fieldGet j "date" = some (.str s) → s ≠ "" →
      extractItemDate item = some (splitT s)) ∧
    (∀ v t, dcol.value = some v → jsonParse v = none →
      dcol.text = some t → sentinelGuard (some t) = true → isDateFormat (splitT t) = true →
      extractItemDate item = some (splitT t)) ∧
    (∀ v j t, dcol.value = some v → jsonParse v = some j → fieldGet j "date" = none →
      dcol.text = some t → sentinelGuard (some t) = true → isDateFormat (splitT t) = true →
      extractItemDate item = some (splitT t)) ∧
    (∀ v, dcol.value = some v → jsonParse v = none → dateFromText dcol = none →
      extractItemDate item = none) ∧
    (∀ v j, dcol.value = some v → jsonParse v = some j → fieldGet j "date" = none →
      dateFromText dcol = none → extractItemDate item = none) ∧
    (sentinelGuard dcol.value = false → dateFromText dcol = none →
      extractItemDate item = none) ∧
    (dateFromValue dcol = none → extractItemDate item = dateFromText dcol) := by
  have hfirst : extractItemDate item = tryDateCol dcol := by
    rw [extractItemDate, hcv]
    exact firstSome_eq_of_unique tryDateCol cols dcol hmem fun c hc hne =>
      huniq c hc (by by_contra hne2; exact hne (tryDateCol_id_ne c hne2))
  have hval : ∀ v, dcol.value = some v → jsonParse v = none →
      dateFromValue dcol = none := by
    intro v hv hpf
    by_cases hg : (v != "" && v != "null" && v != "\"\"") = true
    · simp [dateFromValue, hv, hg, hpf]
    · simp [dateFromValue, hv, hg]
  have hvalna : ∀ v j, dcol.value = some v → jsonParse v = some j →
      fieldGet j "date" = none → dateFromValue dcol = none := by
    intro v j hv hjp hna
    by_cases hg : (v != "" && v != "null" && v != "\"\"") = true
    · cases htr : jsTruthy j
      · simp [dateFromValue, hv, hg, hjp, htr]
      · simp [dateFromValue, hv, hg, hjp, htr, hna]
    · simp [dateFromValue, hv, hg]
  refine ⟨?_, ?_, ?_, ?_, ?_, ?_, ?_⟩
  · intro v j s hv hsg hjp hfg hs
    rw [hfirst]
    have hg : (v != "" && v != "null" && v != "\"\"") = true := by
      simpa [sentinelGuard] using hsg
    have htr := jsTruthy_of_fieldGet j "date" (.str s) hfg
    have hts : jsTruthy (.str s) = true := by
      simpa [jsTruthy, bne_iff_ne] using hs
    simp [tryDateCol, hid, dateFromValue, hv, hg, hjp, htr, hfg, hts]
  · intro v t hv hpf ht hsgt hfmt
    rw [hfirst]
    have hg : (t != "" && t != "null" && t != "\"\"") = true := by
      simpa [sentinelGuard] using hsgt
    simp [tryDateCol, hid, hval v hv hpf, dateFromText, ht, hg, hfmt]
  · intro v j t hv hjp hna ht hsgt hfmt
    rw [hfirst]
    have hdv : dateFromValue dcol = none := by
      by_cases hg : (v != "" && v != "null" && v != "\"\"") = true
      · cases htr : jsTruthy j
        · simp [dateFromValue, hv, hg, hjp, htr]
        · simp [dateFromValue, hv, hg, hjp, htr, hna]
      · simp [dateFromValue, hv, hg]
    have hg2 : (t != "" && t != "null" && t != "\"\"") = true := by
      simpa [sentinelGuard] using hsgt
    simp [tryDateCol, hid, hdv, dateFromText, ht, hg2, hfmt]
  · intro v hv hpf htn
    rw [hfirst]
    simp [tryDateCol, hid, hval v hv hpf, htn]
  · intro v j hv hjp hna htn
    rw [hfirst]
    simp [tryDateCol, hid, hvalna v j hv hjp hna, htn]
  · intro hsgf htn
    have hdv : dateFromValue dcol = none := by
      cases hv : dcol.value with
      | none => simp [dateFromValue, hv]
      | some v =>
        rw [hv] at hsgf
        simp only [sentinelGuard] at hsgf
        simp [dateFromValue, hv, hsgf]
    rw [hfirst]
    simp [tryDateCol, hid, hdv, htn]
  · intro hdv
    rw [hfirst]
    simp [tryDateCol, hid, hdv]

/-- C4 witness: an ISO timestamp payload yields only the date
portion, a malformed payload falls back to the validated text, both
on concrete items. -/
theorem claim_C4_date_extraction_witness :
    extractItemDate wItemIn = some (splitT "2024-01-03T09:00:00") ∧
      extractItemDate c4Item = some (splitT "2024-01-16T12:00:00") :=
  ⟨(claim_C4_date_extraction wItemIn _
      { id := "date4", value := some "\x7b\"date\":\"2024-01-03T09:00:00\"\x7d", text := none }
      rfl (by simp) rfl (by decide)).1
      "\x7b\"date\":\"2024-01-03T09:00:00\"\x7d"
      (.obj [("date", .str "2024-01-03T09:00:00")]) "2024-01-03T09:00:00"
      rfl (by decide) (by rfl) rfl (by decide),
   (claim_C4_date_extraction c4Item _
      { id := "date4", value := some "oops", text := some "2024-01-16T12:00:00" }
      rfl (by simp) rfl (by decide)).2.1
      "oops" "2024-01-16T12:00:00" rfl (by rfl) rfl (by decide) (by rfl)⟩

theorem colValFromCol_id_ne (c : ColumnValue) (cid : String) (h : ¬c.id = cid) :
    colValFromCol c cid = none := by
  simp [colValFromCol, h]

/-- C5 amended: generic field extraction on an item with a unique
column of the requested id — a non-sentinel `text` is returned; else
a decoded JSON string is returned; else a truthy decoded `.text`
member is returned; the raw `value` string is returned only when
JSON decoding throws; when decoding succeeds but yields neither a
string nor a truthy `.text` member (and in every other fall-through)
the result is the empty string, as it is for a missing column. -/
theorem claim_C5_field_extraction_amended (item : RawItem) (cols : List ColumnValue)
    (col : ColumnValue) (columnId : String) (hcv : item.column_values = some cols)
    (hmem : col ∈ cols) (hid : col.id = columnId)
    (huniq : ∀ c ∈ cols, c.id = columnId → c = col) :
    (∀ t, col.text = some t → sentinelGuard (some t) = true →
      extractColumnValue item columnId = t) ∧
    (sentinelGuard col.text = false → ∀ v s, col.value = some v →
      sentinelGuard (some v) = true → jsonParse v = some (.str s) →
      extractColumnValue item columnId = s) ∧
    (sentinelGuard col.text = false → ∀ v j t', col.value = some v →
      sentinelGuard (some v) = true → jsonParse v = some j →
      fieldGet j "text" = some t' → jsTruthy t' = true →
      extractColumnValue item columnId = jsToString t') ∧
    (sentinelGuard col.text = false → ∀ v, col.value = some v →
      sentinelGuard (some v) = true → jsonParse v = none →
      extractColumnValue item columnId = v) ∧
    (sentinelGuard col.text = false → colValFromValue col = none →
      extractColumnValue item columnId = "") ∧
    (∀ cid', (∀ c ∈ cols, ¬c.id = cid') → extractColumnValue item cid' = "") := by
  have hfirst : extractColumnValue item columnId = (colValFromCol col columnId).getD "" := by
    simp only [extractColumnValue, hcv]
    rw [firstSome_eq_of_unique (fun c => colValFromCol c columnId) cols col hmem
      fun c hc hne => huniq c hc (by by_contra hne2; exact hne (colValFromCol_id_ne c columnId hne2))]
  have htext : sentinelGuard col.text = false →
      colValFromCol col columnId = colValFromValue col := by
    intro hs
    cases ht : col.text with
    | none => simp [colValFromCol, hid, ht]
    | some t =>
      rw [ht] at hs
      simp only [sentinelGuard] at hs
      simp [colValFromCol, hid, ht, hs]
  refine ⟨?_, ?_, ?_, ?_, ?_, ?_⟩
  · intro t ht hsg
    have hg : (t != "" && t != "null" && t != "\"\"") = true := by
      simpa [sentinelGuard] using hsg
    rw [hfirst]
    simp [colValFromCol, hid, ht, hg]
  · intro hst v s hv hsg hjp
    have hg : (v != "" && v != "null" && v != "\"\"") = true := by
      simpa [sentinelGuard] using hsg
    rw [hfirst, htext hst]
    simp [colValFromValue, hv, hg, hjp]
  · intro hst v j t' hv hsg hjp hfg htr
    have hg : (v != "" && v != "null" && v != "\"\"") = true := by
      simpa [sentinelGuard] using hsg
    have htj := jsTruthy_of_fieldGet j "text" t' hfg
    rw [hfirst, htext hst]
    cases j with
    | obj fs => simp [colValFromValue, hv, hg, hjp, htj, hfg, htr]
    | null => simp [fieldGet] at hfg
    | bool b => simp [fieldGet] at hfg
    | num n => simp [fieldGet] at hfg
    | str s => simp [fieldGet] at hfg
    | arr xs => simp [fieldGet] at hfg
  · intro hst v hv hsg hjp
    have hg : (v != "" && v != "null" && v != "\"\"") = true := by
      simpa [sentinelGuard] using hsg
    rw [hfirst, htext hst]
    simp [colValFromValue, hv, hg, hjp]
  · intro hst hnone
    rw [hfirst, htext hst, hnone]
    rfl
  · intro cid' hall
    simp only [extractColumnValue, hcv]
    rw [firstSome_eq_none (fun c => colValFromCol c cid') cols
      fun c hc => colValFromCol_id_ne c cid' (hall c hc)]
    rfl

/-- C5 counterexample: on a column whose `value` decodes to the JSON
number `123` (neither a string nor an object with a `.text` member),
the code returns `""` while the claimed chain falls back to the raw
value string `"123"`. -/
theorem claim_C5_field_extraction_counterexample :
    extractColumnValue c5Item "text__1" = "" ∧
      claimedExtractColumnValue c5Item "text__1" = "123" ∧
      extractColumnValue c5Item "text__1" ≠ claimedExtractColumnValue c5Item "text__1" :=
  ⟨by rfl, by rfl, by decide⟩

/-- C5 witness: the text branch on a concrete column and the
raw-value fallback on a concrete unparseable payload. -/
theorem claim_C5_field_extraction_amended_witness :
    extractColumnValue wItemIn "text__1" = "ACME" ∧
      extractColumnValue c5RawItem "numbers__1" = "not json" :=
  ⟨(claim_C5_field_extraction_amended wItemIn _
      { id := "text__1", value := none, text := some "ACME" } "text__1"
      rfl (by simp) rfl (by decide)).1 "ACME" rfl (by decide),
   (claim_C5_field_extraction_amended c5RawItem _
      { id := "numbers__1", value := some "not json", text := none } "numbers__1"
      rfl (by simp) rfl (by decide)).2.2.2.1 (by rfl) "not json" rfl (by decide) (by rfl)⟩

theorem statusFromCol_id_ne (c : ColumnValue) (h : ¬c.id = "status") :
    statusFromCol c = none := by
  simp [statusFromCol, h]

/-- C6: activity-type extraction on an item with a unique `status`
column — a decoded payload with an integer `index` member yields
that index; when decoding throws, the lower-cased `text` is matched
against the fixed keyword table and the first matching entry's code
is returned; when every status column yields nothing the default is
1 ("Billable"). -/
theorem claim_C6_status_extraction (item : RawItem) (cols : List ColumnValue)
    (scol : ColumnValue) (hcv : item.column_values = some cols) (hmem : scol ∈ cols)
    (hid : scol.id = "status") (huniq : ∀ c ∈ cols, c.id = "status" → c = scol) :
    (∀ v j n, scol.value = some v → sentinelGuard (some v) = true →
      jsonParse v = some j → fieldGet j "index" = some (.num n) →
      extractStatusValue item = n) ∧
    (∀ v t kv, scol.value = some v → sentinelGuard (some v) = true →
      jsonParse v = none → scol.text = some t → t ≠ "" →
      statusMap.find? (fun p => jsIncludes (jsToLower t) p.1) = some kv →
      extractStatusValue item = kv.2) ∧
    ((∀ c ∈ cols, statusFromCol c = none) → extractStatusValue item = 1) := by
  have hfirst : extractStatusValue item = (firstSome statusFromCol cols).getD 1 := by
    simp only [extractStatusValue, hcv]
  have huniq2 : ∀ c ∈ cols, statusFromCol c ≠ none → c = scol := by
    intro c hc hne
    refine huniq c hc ?_
    by_contra hne2
    exact hne (statusFromCol_id_ne c hne2)
  refine ⟨?_, ?_, ?_⟩
  · intro v j n hv hsg hjp hfg
    rw [hfirst, firstSome_eq_of_unique statusFromCol cols scol hmem huniq2]
    have hsgv : sentinelGuard scol.value = true := by rw [hv]; exact hsg
    have htr := jsTruthy_of_fieldGet j "index" (.num n) hfg
    simp [statusFromCol, hid, hsgv, hsg, hv, hjp, htr, hfg]
  · intro v t kv hv hsg hjp ht htne hfind
    rw [hfirst, firstSome_eq_of_unique statusFromCol cols scol hmem huniq2]
    have hsgv : sentinelGuard scol.value = true := by rw [hv]; exact hsg
    simp [statusFromCol, hid, hsgv, hsg, hv, hjp, ht, htne, statusFromText, hfind]
  · intro hall
    rw [hfirst, firstSome_eq_none statusFromCol cols hall]
    rfl

/-- C6 witness: status value `{index: 6}` yields code 6 (Holiday);
an unparseable status whose text is `Business Development hrs`
yields code 11. -/
theorem claim_C6_status_extraction_witness :
    extractStatusValue c6IdxItem = 6 ∧ extractStatusValue c6KwItem = 11 :=
  ⟨(claim_C6_status_extraction c6IdxItem _
      { id := "status", value := some "\x7b\"index\":6\x7d", text := some "Holiday" }
      rfl (by simp) rfl (by decide)).1
      "\x7b\"index\":6\x7d" (.obj [("index", .num 6)]) 6 rfl (by decide) (by rfl) rfl,
   (claim_C6_status_extraction c6KwItem _
      { id := "status", value := some "not json", text := some "Business Development hrs" }
      rfl (by simp) rfl (by decide)).2.1
      "not json" "Business Development hrs" ("business development", 11)
      rfl (by decide) (by rfl) rfl (by decide) (by rfl)⟩

/-- C10: when every status column's payload decodes successfully but
carries no integer `index` member, the result is the default 1
whatever the text fields hold — the keyword fallback is unreachable
without a decode failure. -/
theorem claim_C10_no_keyword_on_parse_success (item : RawItem) (cols : List ColumnValue)
    (hcv : item.column_values = some cols)
    (hall : ∀ c ∈ cols, c.id = "status" → sentinelGuard c.value = true →
      ∀ v, c.value = some v →
        ∃ j, jsonParse v = some j ∧ ∀ n, fieldGet j "index" ≠ some (.num n)) :
    extractStatusValue item = 1 := by
  simp only [extractStatusValue, hcv]
  rw [firstSome_eq_none statusFromCol cols ?_]
  · rfl
  · intro c hc
    by_cases hid : c.id = "status"
    · by_cases hsg : sentinelGuard c.value = true
      · cases hv : c.value with
        | none => simp [sentinelGuard, hv] at hsg
        | some v =>
          obtain ⟨j, hj, hno⟩ := hall c hc hid hsg v hv
          cases htr : jsTruthy j
          · simp [statusFromCol, hid, hsg, hv, hj, htr]
          · have hnone : (match fieldGet j "index" with
                | some (.num n) => some n
                | _ => none) = (none : Option Int) := by
              cases hfg : fieldGet j "index" with
              | none => rfl
              | some x =>
                cases x with
                | num n => exact absurd hfg (hno n)
                | null => rfl
                | bool b => rfl
                | str s => rfl
                | arr xs => rfl
                | obj fs => rfl
            simp [statusFromCol, hid, hsg, hv, hj, htr, hnone]
      · have hsg2 : sentinelGuard c.value = false := by
          cases h2 : sentinelGuard c.value
          · rfl
          · exact absurd h2 hsg
        simp [statusFromCol, hid, hsg2]
    · exact statusFromCol_id_ne c hid

/-- C10 witness: a status payload `{label: "Holiday"}` decodes but
has no `index`, so the result is 1 even though the text `Holiday`
would match the keyword table with code 6. -/
theorem claim_C10_no_keyword_on_parse_success_witness :
    extractStatusValue c10Item = 1 ∧ statusFromText "Holiday" = some 6 :=
  ⟨claim_C10_no_keyword_on_parse_success c10Item _ rfl
      (by
        intro c hc hid hsg v hv
        simp only [List.mem_singleton] at hc
        subst hc
        have hveq : v = "\x7b\"label\":\"Holiday\"\x7d" := by
          simpa [c10Item] using hv.symm
        subst hveq
        exact ⟨.obj [("label", .str "Holiday")], by rfl, fun n h => Option.noConfusion h⟩),
   by rfl⟩

theorem fetchLoop_full (source : Nat → Option String → Except String PageResponse)
    (pageSize maxPages : Nat)
    (hfull : ∀ p c, ∃ cur items, source p c = .ok ⟨some (some cur, items)⟩ ∧
      cur ≠ "" ∧ items.length = pageSize) :
    ∀ n k acc, maxPages = (k + 1) + n →
      fetchLoop source pageSize maxPages acc (traceCursor source k) (k + 1) =
        .ok (acc ++ pagesConcat (pageItemsAt source) k (n + 1)) := by
  intro n
  induction n with
  | zero =>
    intro k acc hmp
    obtain ⟨cur, items, heq, hcur, hlen⟩ := hfull (k + 1) (traceCursor source k)
    have hpi : pageItemsAt source k = items := by
      rw [pageItemsAt, heq]
    have h1 : cursorTruthy (some cur) = true := by
      simpa [cursorTruthy, bne_iff_ne] using hcur
    rw [fetchLoop, heq]
    simp [h1, hlen, hmp, pagesConcat, hpi]
  | succ n ih =>
    intro k acc hmp
    obtain ⟨cur, items, heq, hcur, hlen⟩ := hfull (k + 1) (traceCursor source k)
    have hpi : pageItemsAt source k = items := by
      rw [pageItemsAt, heq]
    have h1 : cursorTruthy (some cur) = true := by
      simpa [cursorTruthy, bne_iff_ne] using hcur
    have htc : traceCursor source (k + 1) = some cur := by
      rw [traceCursor, heq]
    have hnr : ¬maxPages < (k + 1) + 1 := by omega
    have hstep : fetchLoop source pageSize maxPages acc (traceCursor source k) (k + 1) =
        fetchLoop source pageSize maxPages (acc ++ items) (traceCursor source (k + 1)) (k + 2) := by
      rw [fetchLoop, heq, htc]
      dsimp only
      rw [if_neg (by simp [h1, hlen, Nat.lt_irrefl]), dif_neg hnr]
    rw [hstep, ih (k + 1) (acc ++ items) (by omega), List.append_assoc]
    have hcc : pagesConcat (pageItemsAt source) k (n + 1 + 1) =
        items ++ pagesConcat (pageItemsAt source) (k + 1) (n + 1) := by
      rw [pagesConcat, hpi]
    rw [hcc]

/-- C2: against a paged source that always returns a non-empty cursor
and a full page, `queryItemsPaginated` stops after its fixed ceiling
of 20 pages and `queryAllItemsInGroup` after its ceiling of 10
pages, each returning the concatenation, in fetch order, of the
pages fetched up to the ceiling rather than an error. -/
theorem claim_C2_pagination_ceiling
    (src1 src2 : Nat → Option String → Except String PageResponse) (limit : Nat)
    (h1 : ∀ p c, ∃ cur items, src1 p c = .ok ⟨some (some cur, items)⟩ ∧
      cur ≠ "" ∧ items.length = 500)
    (h2 : ∀ p c, ∃ cur items, src2 p c = .ok ⟨some (some cur, items)⟩ ∧
      cur ≠ "" ∧ items.length = limit) :
    queryItemsPaginated src1 = .ok (pagesConcat (pageItemsAt src1) 0 20) ∧
      queryAllItemsInGroup src2 limit = .ok (pagesConcat (pageItemsAt src2) 0 10) := by
  constructor
  · have h := fetchLoop_full src1 500 20 h1 19 0 [] (by omega)
    rw [show traceCursor src1 0 = none from rfl, List.nil_append] at h
    exact h
  · have h := fetchLoop_full src2 limit 10 h2 9 0 [] (by omega)
    rw [show traceCursor src2 0 = none from rfl, List.nil_append] at h
    exact h

/-- C2 witness: the concrete always-full mock source. -/
theorem claim_C2_pagination_ceiling_witness :
    queryItemsPaginated c2Source = .ok (pagesConcat (pageItemsAt c2Source) 0 20) ∧
      queryAllItemsInGroup c2Source 500 = .ok (pagesConcat (pageItemsAt c2Source) 0 10) :=
  claim_C2_pagination_ceiling c2Source c2Source 500
    (fun _ _ => ⟨"cursor", c2Page, rfl, by decide, List.length_replicate 500 wItemOther⟩)
    (fun _ _ => ⟨"cursor", c2Page, rfl, by decide, List.length_replicate 500 wItemOther⟩)

/-- C8 counterexample: with an API key configured, a 2xx response and
a parseable body whose `errors` field is the non-empty string
`"oops"` — a string, not an array — the call fails (the code throws
a TypeError at `.map`), so the claimed "fails exactly when non-2xx
or non-empty errors array" is false of the program. -/
theorem claim_C8_request_errors_counterexample :
    makeRequest (some "key") (fun _ => .ok c8StrResp) =
        .error "TypeError: result.errors.map is not a function" ∧
      c8StrResp.ok = true ∧
      fieldGet c8StrBody "errors" = some (Json.str "oops") :=
  ⟨by rfl, rfl, by rfl⟩

/-- C8 amended: `makeRequest` fails with the authentication error for
every transport when no (or an empty) API key is configured, without
contacting the endpoint; with a key and a transport yielding a
response with a parseable body, it fails exactly when the response
is non-2xx or the `errors` field is truthy with positive length —
in particular a non-empty `errors` array, whose messages (absent or
`null` rendered empty, the way JS `join` renders them) are joined
verbatim into the raised error when no entry is `null`; otherwise
the body's `data` field is returned. -/
theorem claim_C8_request_errors_amended (apiKey : Option String) (kk : String)
    (transport : Unit → Except String HttpResponse) (resp : HttpResponse) (body : Json)
    (hk : apiKey = some kk) (hk2 : kk ≠ "")
    (htr : transport () = .ok resp) (hjson : resp.json = some body) :
    (∀ tr2 : Unit → Except String HttpResponse,
      makeRequest none tr2 = .error "API key not set" ∧
        makeRequest (some "") tr2 = .error "API key not set") ∧
    ((∃ e, makeRequest apiKey transport = .error e) ↔
      resp.ok = false ∨ ∃ errs, fieldGet body "errors" = some errs ∧
        (jsTruthy errs && jsLengthPositive errs) = true) ∧
    (∀ es, resp.ok = true → fieldGet body "errors" = some (.arr es) → es ≠ [] →
      (∀ e ∈ es, e.isNull = false) →
      makeRequest apiKey transport = .error ("Monday.com API error: " ++
        String.intercalate ", " (es.map errorMessage))) ∧
    (resp.ok = true →
      (fieldGet body "errors" = none ∨ ∃ errs, fieldGet body "errors" = some errs ∧
        (jsTruthy errs && jsLengthPositive errs) = false) →
      makeRequest apiKey transport = .ok (fieldGet body "data")) := by
  have hkey : ¬(apiKey = none ∨ apiKey = some "") := by
    rw [hk]
    rintro (h | h)
    · exact Option.noConfusion h
    · exact hk2 (Option.some.inj h)
  have hrun : makeRequest apiKey transport =
      (if !resp.ok then
        .error ("HTTP error! status: " ++ toString resp.status ++
          ", response: " ++ resp.text)
      else
        match fieldGet body "errors" with
        | some errs =>
          if jsTruthy errs && jsLengthPositive errs then
            match errs with
            | .arr es =>
              if es.any Json.isNull then
                .error "TypeError: Cannot read properties of null (reading 'message')"
              else
                .error ("Monday.com API error: " ++
                  String.intercalate ", " (es.map errorMessage))
            | _ => .error "TypeError: result.errors.map is not a function"
          else .ok (fieldGet body "data")
        | none => .ok (fieldGet body "data")) := by
    rw [makeRequest, if_neg hkey, htr]
    dsimp only
    rw [hjson]
  refine ⟨?_, ?_, ?_, ?_⟩
  · intro tr2
    constructor
    · rw [makeRequest, if_pos (Or.inl rfl)]
    · rw [makeRequest, if_pos (Or.inr rfl)]
  · cases hok : resp.ok with
    | false =>
      constructor
      · intro _; exact Or.inl rfl
      · intro _
        exact ⟨_, by rw [hrun, hok]; rfl⟩
    | true =>
      cases hfe : fieldGet body "errors" with
      | none =>
        constructor
        · rintro ⟨e, he⟩
          rw [hrun, hok, hfe] at he
          exact absurd he (by simp)
        · rintro (h | ⟨errs, heq, -⟩)
          · exact absurd h (by decide)
          · exact Option.noConfusion heq
      | some errs =>
        cases hc : (jsTruthy errs && jsLengthPositive errs) with
        | false =>
          constructor
          · rintro ⟨e, he⟩
            rw [hrun, hok, hfe] at he
            simp [hc] at he
          · rintro (h | ⟨errs2, heq, htrue⟩)
            · exact absurd h (by decide)
            · obtain rfl : errs = errs2 := Option.some.inj heq
              exact absurd (hc.symm.trans htrue) (by decide)
        | true =>
          constructor
          · intro _; exact Or.inr ⟨errs, rfl, hc⟩
          · intro _
            cases errs with
            | arr es =>
              cases hnull : es.any Json.isNull with
              | true =>
                refine ⟨"TypeError: Cannot read properties of null (reading 'message')", ?_⟩
                rw [hrun, hok, hfe]
                simp [hc, hnull]
              | false =>
                refine ⟨"Monday.com API error: " ++
                  String.intercalate ", " (es.map errorMessage), ?_⟩
                rw [hrun, hok, hfe]
                simp [hc, hnull]
            | null =>
              exact ⟨"TypeError: result.errors.map is not a function",
                by rw [hrun, hok, hfe]; simp [hc]⟩
            | bool b =>
              exact ⟨"TypeError: result.errors.map is not a function",
                by rw [hrun, hok, hfe]; simp [hc]⟩
            | num n =>
              exact ⟨"TypeError: result.errors.map is not a function",
                by rw [hrun, hok, hfe]; simp [hc]⟩
            | str s =>
              exact ⟨"TypeError: result.errors.map is not a function",
                by rw [hrun, hok, hfe]; simp [hc]⟩
            | obj fs =>
              exact ⟨"TypeError: result.errors.map is not a function",
                by rw [hrun, hok, hfe]; simp [hc]⟩
  · intro es hok hes hne hnn
    have h2 : jsLengthPositive (.arr es) = true := by
      simp only [jsLengthPositive, decide_eq_true_eq]
      exact List.length_pos.mpr hne
    have hc : (jsTruthy (Json.arr es) && jsLengthPositive (Json.arr es)) = true := by
      rw [h2]
      rfl
    have hnull : es.any Json.isNull = false := by
      rw [List.any_eq_false]
      intro x hx
      rw [hnn x hx]
      exact Bool.false_ne_true
    rw [hrun, hok, hes]
    simp [hc, hnull]
  · intro hok hE
    rcases hE with hnone | ⟨errs, heq, hcf⟩
    · rw [hrun, hok, hnone]
      simp
    · rw [hrun, hok, heq]
      simp [hcf]

/-- C8 witness: the auth failure, the joined-error result on a
two-error body, and a concrete success returning the `data` field. -/
theorem claim_C8_request_errors_amended_witness :
    (makeRequest none (fun _ => .ok c8OkResp) = .error "API key not set") ∧
      makeRequest (some "key") (fun _ => .ok c8ErrResp) =
        .error ("Monday.com API error: " ++ String.intercalate ", "
          ([Json.obj [("message", .str "bad")],
            Json.obj [("message", .str "worse")]].map errorMessage)) ∧
      makeRequest (some "key") (fun _ => .ok c8OkResp) =
        .ok (fieldGet c8OkBody "data") :=
  ⟨((claim_C8_request_errors_amended (some "key") "key" (fun _ => .ok c8OkResp)
      c8OkResp c8OkBody rfl (by decide) rfl (by rfl)).1 (fun _ => .ok c8OkResp)).1,
   (claim_C8_request_errors_amended (some "key") "key" (fun _ => .ok c8ErrResp)
      c8ErrResp c8ErrBody rfl (by decide) rfl (by rfl)).2.2.1
      [.obj [("message", .str "bad")], .obj [("message", .str "worse")]]
      rfl (by rfl) (by simp) (by decide),
   (claim_C8_request_errors_amended (some "key") "key" (fun _ => .ok c8OkResp)
      c8OkResp c8OkBody rfl (by decide) rfl (by rfl)).2.2.2 rfl (Or.inl (by rfl))⟩

theorem setAdd_nodup (l : List String) (x : String) (h : l.Nodup) :
    (setAdd l x).Nodup := by
  unfold setAdd
  by_cases hm : x ∈ l
  · simpa [hm] using h
  · simp [hm, List.nodup_append, h]

theorem mapAddSet_keys (m : List (String × List String)) (c w : String) :
    (mapAddSet m c w).map Prod.fst =
      if c ∈ m.map Prod.fst then m.map Prod.fst else m.map Prod.fst ++ [c] := by
  induction m with
  | nil => simp [mapAddSet]
  | cons p r ih =>
    obtain ⟨c', ws⟩ := p
    by_cases hc : c' = c
    · subst hc; simp [mapAddSet]
    · by_cases hm : c ∈ List.map Prod.fst r
      · simp [mapAddSet, hc, ih, hm, Ne.symm hc]
      · simp [mapAddSet, hc, ih, hm, Ne.symm hc]

theorem mapAddSet_nodup_keys (m : List (String × List String)) (c w : String)
    (h : (m.map Prod.fst).Nodup) : ((mapAddSet m c w).map Prod.fst).Nodup := by
  rw [mapAddSet_keys]
  by_cases hm : c ∈ m.map Prod.fst
  · simpa [hm] using h
  · simp [hm, List.nodup_append, h]

theorem mapAddSet_nodup_values (m : List (String × List String)) (c w : String)
    (h : ∀ p ∈ m, p.2.Nodup) : ∀ p ∈ mapAddSet m c w, p.2.Nodup := by
  induction m with
  | nil =>
    intro p hp
    simp [mapAddSet] at hp
    subst hp
    simp
  | cons q r ih =>
    obtain ⟨c', ws⟩ := q
    intro p hp
    by_cases hc : c' = c
    · subst hc
      simp only [mapAddSet, if_pos rfl] at hp
      rcases List.mem_cons.mp hp with rfl | hp'
      · exact setAdd_nodup ws w (h (c', ws) (List.mem_cons_self _ _))
      · exact h p (List.mem_cons_of_mem _ hp')
    · simp only [mapAddSet, if_neg hc] at hp
      rcases List.mem_cons.mp hp with rfl | hp'
      · exact h (c', ws) (List.mem_cons_self _ _)
      · exact ih (fun q hq => h q (List.mem_cons_of_mem _ hq)) p hp'

theorem mapRemoveSet_keys_sublist (m : List (String × List String)) (c w : String) :
    List.Sublist ((mapRemoveSet m c w).map Prod.fst) (m.map Prod.fst) := by
  induction m with
  | nil => simp [mapRemoveSet]
  | cons q r ih =>
    obtain ⟨c', ws⟩ := q
    by_cases hc : c' = c
    · subst hc
      by_cases he : ws.erase w = []
      · simp only [mapRemoveSet, if_pos rfl, he, if_pos rfl]
        exact (List.Sublist.refl _).cons c'
      · simp only [mapRemoveSet, if_pos rfl, if_neg he, List.map_cons]
        exact (List.Sublist.refl _).cons₂ c'
    · simp only [mapRemoveSet, if_neg hc, List.map_cons]
      exact ih.cons₂ c'

theorem mapRemoveSet_nodup_values (m : List (String × List String)) (c w : String)
    (h : ∀ p ∈ m, p.2.Nodup) : ∀ p ∈ mapRemoveSet m c w, p.2.Nodup := by
  induction m with
  | nil => intro p hp; simp [mapRemoveSet] at hp
  | cons q r ih =>
    obtain ⟨c', ws⟩ := q
    intro p hp
    by_cases hc : c' = c
    · subst hc
      by_cases he : ws.erase w = []
      · simp only [mapRemoveSet, if_pos rfl, he, if_pos rfl] at hp
        exact h p (List.mem_cons_of_mem _ hp)
      · simp only [mapRemoveSet, if_pos rfl, if_neg he] at hp
        rcases List.mem_cons.mp hp with rfl | hp'
        · exact (h (c', ws) (List.mem_cons_self _ _)).erase w
        · exact h p (List.mem_cons_of_mem _ hp')
    · simp only [mapRemoveSet, if_neg hc] at hp
      rcases List.mem_cons.mp hp with rfl | hp'
      · exact h (c', ws) (List.mem_cons_self _ _)
      · exact ih (fun q hq => h q (List.mem_cons_of_mem _ hq)) p hp'

theorem applyMemOp_invariant (m : Memory) (op : MemOp)
    (h1 : (m.customerWorkPairs.map Prod.fst).Nodup)
    (h2 : ∀ p ∈ m.customerWorkPairs, p.2.Nodup) :
    ((applyMemOp m op).customerWorkPairs.map Prod.fst).Nodup ∧
      ∀ p ∈ (applyMemOp m op).customerWorkPairs, p.2.Nodup := by
  cases op with
  | add c w =>
    have happ : applyMemOp m (.add c w) = addCustomerWorkPair m c w := rfl
    rw [happ]
    unfold addCustomerWorkPair
    by_cases hg : (c = "" || w = "" || c = "null" || w = "null") = true
    · rw [if_pos hg]
      exact ⟨h1, h2⟩
    · rw [if_neg hg]
      by_cases he : pairKey c w ∈ m.expiredPairs
      · rw [if_pos he]
        exact ⟨h1, h2⟩
      · rw [if_neg he]
        exact ⟨mapAddSet_nodup_keys _ c w h1, mapAddSet_nodup_values _ c w h2⟩
  | remove c w =>
    exact ⟨(mapRemoveSet_keys_sublist _ c w).nodup h1,
      mapRemoveSet_nodup_values _ c w h2⟩
  | markExpired c w =>
    exact ⟨(mapRemoveSet_keys_sublist _ c w).nodup h1,
      mapRemoveSet_nodup_values _ c w h2⟩
  | unmarkExpired c w =>
    exact ⟨h1, h2⟩

theorem getCustomerWorkPairs_not_expired (m : Memory) (c w : String)
    (h : (c, w) ∈ getCustomerWorkPairs m) : pairKey c w ∉ m.expiredPairs := by
  unfold getCustomerWorkPairs at h
  rw [List.mem_mergeSort, List.mem_flatMap] at h
  obtain ⟨cw, hcw, hmem⟩ := h
  rw [List.mem_filterMap] at hmem
  obtain ⟨w', hw', heq⟩ := hmem
  by_cases hexp : pairKey cw.1 w' ∈ m.expiredPairs
  · rw [if_pos hexp] at heq
    exact Option.noConfusion heq
  · rw [if_neg hexp] at heq
    obtain ⟨h1, h2⟩ := Prod.mk.injEq .. ▸ Option.some.inj heq
    subst h1
    subst h2
    exact hexp

/-- C9: after any sequence of add / remove / mark-expired /
unmark-expired operations, the customer/work-item memory holds each
customer at most once with a duplicate-free work-item set (set
semantics), and no pair whose key is in the expired set ever appears
in the active suggestion list. -/
theorem claim_C9_memory_invariants (ops : List MemOp) :
    ((runMemOps ops).customerWorkPairs.map Prod.fst).Nodup ∧
      (∀ p ∈ (runMemOps ops).customerWorkPairs, p.2.Nodup) ∧
      ∀ c w, (c, w) ∈ getCustomerWorkPairs (runMemOps ops) →
        pairKey c w ∉ (runMemOps ops).expiredPairs := by
  have hrun : ∀ (l : List MemOp) (m : Memory),
      (m.customerWorkPairs.map Prod.fst).Nodup →
      (∀ p ∈ m.customerWorkPairs, p.2.Nodup) →
      ((List.foldl applyMemOp m l).customerWorkPairs.map Prod.fst).Nodup ∧
        ∀ p ∈ (List.foldl applyMemOp m l).customerWorkPairs, p.2.Nodup := by
    intro l
    induction l with
    | nil => exact fun m h1 h2 => ⟨h1, h2⟩
    | cons op t ih =>
      intro m h1 h2
      obtain ⟨h1', h2'⟩ := applyMemOp_invariant m op h1 h2
      exact ih (applyMemOp m op) h1' h2'
  obtain ⟨ha, hb⟩ := hrun ops { customerWorkPairs := [], expiredPairs := [] }
    (by simp) (by intro p hp; simp at hp)
  exact ⟨ha, hb, fun c w h => getCustomerWorkPairs_not_expired _ c w h⟩

/-- C9 witness: a concrete operation sequence re-adding an expired
pair; the invariants hold of the resulting memory. -/
theorem claim_C9_memory_invariants_witness :
    ((runMemOps [.add "a" "x", .add "a" "x", .add "a" "y", .markExpired "a" "y",
        .add "a" "y"]).customerWorkPairs.map Prod.fst).Nodup ∧
      (∀ p ∈ (runMemOps [.add "a" "x", .add "a" "x", .add "a" "y",
          .markExpired "a" "y", .add "a" "y"]).customerWorkPairs, p.2.Nodup) ∧
      ∀ c w, (c, w) ∈ getCustomerWorkPairs (runMemOps [.add "a" "x", .add "a" "x",
          .add "a" "y", .markExpired "a" "y", .add "a" "y"]) →
        pairKey c w ∉ (runMemOps [.add "a" "x", .add "a" "x", .add "a" "y",
          .markExpired "a" "y", .add "a" "y"]).expiredPairs :=
  claim_C9_memory_invariants
    [.add "a" "x", .add "a" "x", .add "a" "y", .markExpired "a" "y", .add "a" "y"]

end ClaimWebApp
